import Mathlib

/-!
# MDIO register access (`phyreg.c`)

A shallow embedding of `phyreg.c`: the memory-mapped register window of the
AM335x MDIO controller is a device with volatile loads and stores, every
access the C code makes is recorded on a bus log, and the busy-wait loops run
on a fuel budget (the C loops have none).
-/

namespace PhyReg

/-! ## Constants of the source -/

def MAP_SIZE : Nat := 0x90
def MAP_MASK : Nat := MAP_SIZE - 1
def MDIO_BASE_TARGET : Nat := 0x4a101000
def ENABLE_CTRL_OFFSET : Nat := 0x04
def MDIO_ALIVE_OFFSET : Nat := 0x08
def MDIO_LINK_OFFSET : Nat := 0x0c
def MDIO_USERACCESS0_OFFSET : Nat := 0x80
def MDIO_USERACCESS0_GO_BIT : Nat := 1 <<< 31
def MDIO_USERACCESS0_WRITE_BIT : Nat := 1 <<< 30
def MDIO_USERACCESS0_ACK_BIT : Nat := 1 <<< 29

/-- Width of `unsigned` / `int` on the target: values are taken modulo this. -/
def WORD : Nat := 4294967296

/-- Width of `unsigned short`. -/
def HALF : Nat := 65536

/-- Conversion of a 32-bit `unsigned` to `int` (two's complement). -/
def toInt32 (v : Nat) : Int :=
  if v % WORD < 2147483648 then ((v % WORD : Nat) : Int) else ((v % WORD : Nat) : Int) - 4294967296

/-! ## The register window and the log of what the program does -/

/-- One access to the mapped register window, by byte offset. -/
inductive Event where
  | load (off : Nat) (v : Nat)
  | store (off : Nat) (v : Nat)
  deriving DecidableEq, Repr

/-- The pieces of text the program prints. -/
inductive Tok where
  | hdr (phy reg : Nat)
  | wait
  | idle
  | write (seen : Nat)
  | read (seen : Nat)
  | ack
  | nak
  | data (d : Int)
  | wrote (v : Nat)
  | newline
  | ctrlBefore (v : Int)
  | aliveBits (v : Nat)
  | noPhy
  | phyAddr (a : Nat)
  | errBoundary
  | errOpen
  | errMmap
  | errInit
  deriving DecidableEq, Repr

/-- The calls into the operating system made by `map_base`. -/
inductive Syscall where
  | openMem
  | mmap (len target : Nat)
  | close
  deriving DecidableEq, Repr

/-- A register window: a volatile load returns a word and may change the
device; a store changes the device. Offsets are byte offsets from the base. -/
structure Device (σ : Type) where
  load : Nat → σ → Nat × σ
  store : Nat → Nat → σ → σ

/-- Everything the program can touch: the device behind the mapping, the log
of its loads and stores (oldest first), what was printed, the system calls
made, and the two globals `mdiobase` and `phy_address`. -/
structure World (σ : Type) where
  hw : σ
  bus : List Event
  out : List Tok
  sys : List Syscall
  mdiobase : Option Nat
  phy_address : Nat

section Run

variable {σ : Type}

/-- A volatile read `*p` of the 32-bit word at byte offset `off`. -/
def ld (dev : Device σ) (off : Nat) (w : World σ) : Nat × World σ :=
  ((dev.load off w.hw).1 % WORD,
   { w with hw := (dev.load off w.hw).2,
            bus := w.bus ++ [Event.load off ((dev.load off w.hw).1 % WORD)] })

/-- A volatile write `*p = v` of a 32-bit word at byte offset `off`. -/
def sto (dev : Device σ) (off : Nat) (v : Nat) (w : World σ) : World σ :=
  { w with hw := dev.store off (v % WORD) w.hw,
           bus := w.bus ++ [Event.store off (v % WORD)] }

/-- A `printf`. -/
def say (t : Tok) (w : World σ) : World σ :=
  { w with out := w.out ++ [t] }

/-- The loop `while (*useraccessaddress & MDIO_USERACCESS0_GO_BIT);`. The
boolean tells whether the loop was left (`true`) or the fuel ran out. -/
def waitGo (dev : Device σ) (ua : Nat) : Nat → World σ → World σ × Bool
  | 0, w => (w, false)
  | fuel + 1, w =>
    if (ld dev ua w).1 &&& MDIO_USERACCESS0_GO_BIT ≠ 0 then
      waitGo dev ua fuel (ld dev ua w).2
    else
      ((ld dev ua w).2, true)

/-- Lines 136-144 of `accessreg`: test GO once, and wait if it is set. -/
def waitIdle (dev : Device σ) (fuel ua : Nat) (w : World σ) : World σ × Bool :=
  if (ld dev ua w).1 &&& MDIO_USERACCESS0_GO_BIT ≠ 0 then
    waitGo dev ua fuel (say Tok.wait (ld dev ua w).2)
  else
    (say Tok.idle (ld dev ua w).2, true)

/-- The command word of line 149 (write) and line 153 (read). -/
def cmdWord (phy_address reg writeflag writeval : Nat) : Nat :=
  if writeflag % 256 ≠ 0 then
    (MDIO_USERACCESS0_GO_BIT ||| MDIO_USERACCESS0_WRITE_BIT ||| ((reg % HALF) <<< 21)
      ||| ((phy_address % HALF) <<< 16) ||| (writeval % WORD)) % WORD
  else
    (MDIO_USERACCESS0_GO_BIT ||| ((reg % HALF) <<< 21) ||| ((phy_address % HALF) <<< 16)) % WORD

/-- Lines 146-155 of `accessreg`: store the command word. The write branch
prints the register before the store, the read branch after it. -/
def sendCmd (dev : Device σ) (ua phy_address reg writeflag writeval : Nat)
    (w : World σ) : World σ :=
  if writeflag % 256 ≠ 0 then
    sto dev ua (cmdWord phy_address reg writeflag writeval)
      (say (Tok.write (ld dev ua w).1) (ld dev ua w).2)
  else
    say (Tok.read (ld dev ua (sto dev ua (cmdWord phy_address reg writeflag writeval) w)).1)
      (ld dev ua (sto dev ua (cmdWord phy_address reg writeflag writeval) w)).2

/-- Lines 161-169 of `accessreg`: test ACK, and on ACK wait for GO again. -/
def checkAck (dev : Device σ) (fuel ua : Nat) (w : World σ) : World σ × Bool :=
  if (ld dev ua w).1 &&& MDIO_USERACCESS0_ACK_BIT ≠ 0 then
    waitGo dev ua fuel (say Tok.ack (ld dev ua w).2)
  else
    (say Tok.nak (ld dev ua w).2, true)

/-- Lines 171-181 of `accessreg`: read the register into `int data`, print it
and return it. -/
def fetchData (dev : Device σ) (ua writeflag writeval : Nat) (w : World σ) : World σ × Int :=
  (say Tok.newline
    (if writeflag % 256 ≠ 0 then
      say (Tok.wrote (writeval % WORD)) (say (Tok.data (toInt32 (ld dev ua w).1)) (ld dev ua w).2)
    else
      say (Tok.data (toInt32 (ld dev ua w).1)) (ld dev ua w).2),
   toInt32 (ld dev ua w).1)

/-- The function `accessreg`. The result is `none` when a busy-wait loop ran
out of fuel; the world then still holds everything done up to that point. -/
def accessreg (dev : Device σ) (fuel ua phy_address reg writeflag writeval : Nat)
    (w : World σ) : World σ × Option Int :=
  match waitIdle dev fuel ua (say (Tok.hdr (phy_address % HALF) (reg % HALF)) w) with
  | (w1, false) => (w1, none)
  | (w1, true) =>
    match waitGo dev ua fuel (sendCmd dev ua phy_address reg writeflag writeval w1) with
    | (w2, false) => (w2, none)
    | (w2, true) =>
      match checkAck dev fuel ua w2 with
      | (w3, false) => (w3, none)
      | (w3, true) =>
        ((fetchData dev ua writeflag writeval w3).1,
         some (fetchData dev ua writeflag writeval w3).2)

/-- The function `readreg`. -/
def readreg (dev : Device σ) (fuel ua phy_address reg : Nat) (w : World σ) :
    World σ × Option Int :=
  accessreg dev fuel ua phy_address reg 0 0 w

/-- The function `writereg`; `data` is an `unsigned short`. -/
def writereg (dev : Device σ) (fuel ua phy_address reg data : Nat) (w : World σ) :
    World σ × Option Int :=
  accessreg dev fuel ua phy_address reg 1 (data % HALF) w

/-! ## Mapping the window and `miiInit` -/

/-- What the operating system answers to `map_base`: whether `open` of
`/dev/mem` and `mmap` succeed. -/
structure Os where
  openOk : Bool
  mmapOk : Bool

/-- The function `map_base`. `~MAP_MASK` is the 32-bit complement of
`MAP_MASK`. The result is `none` for `NULL`; a successful mapping is
identified by the physical address it maps. -/
def map_base (os : Os) (target : Nat) (w : World σ) : World σ × Option Nat :=
  if target % WORD ≠ (target % WORD) &&& ((WORD - 1) ^^^ MAP_MASK) then
    (say Tok.errBoundary w, none)
  else if os.openOk = false then
    (say Tok.errOpen { w with sys := w.sys ++ [Syscall.openMem] }, none)
  else if os.mmapOk = false then
    (say Tok.errMmap
      { w with sys := w.sys ++ [Syscall.openMem, Syscall.mmap MAP_SIZE (target % WORD),
                                Syscall.close] }, none)
  else
    ({ w with sys := w.sys ++ [Syscall.openMem, Syscall.mmap MAP_SIZE (target % WORD),
                               Syscall.close] }, some (target % WORD))

/-- Lines 205-212 of `miiInit`: read the control register as an `int` and
store `0x410000ff` to it unless it already holds that value. -/
def enableCtrl (dev : Device σ) (w : World σ) : World σ :=
  if toInt32 (ld dev ENABLE_CTRL_OFFSET w).1 ≠ 0x410000ff then
    sto dev ENABLE_CTRL_OFFSET 0x410000ff
      (say (Tok.ctrlBefore (toInt32 (ld dev ENABLE_CTRL_OFFSET w).1)) (ld dev ENABLE_CTRL_OFFSET w).2)
  else
    say (Tok.ctrlBefore (toInt32 (ld dev ENABLE_CTRL_OFFSET w).1)) (ld dev ENABLE_CTRL_OFFSET w).2

/-- The loop of line 219 on the global `phy_address`:
`while (phy_address < 32 && ((alivebits & (1 << phy_address)) == 0)) phy_address++;` -/
def scanPhy (alivebits : Nat) (phy_address : Nat) : Nat :=
  if phy_address < 32 ∧ alivebits &&& (1 <<< phy_address) = 0 then
    scanPhy alivebits (phy_address + 1)
  else
    phy_address
termination_by 32 - phy_address

/-- Lines 214-222 of `miiInit`: read the alive register once and advance the
global `phy_address` to the first address whose bit is set. -/
def findPhy (dev : Device σ) (w : World σ) : World σ :=
  { say (Tok.aliveBits (ld dev MDIO_ALIVE_OFFSET w).1) (ld dev MDIO_ALIVE_OFFSET w).2 with
    phy_address := scanPhy (ld dev MDIO_ALIVE_OFFSET w).1 w.phy_address }

/-- Lines 234-237 of `miiInit`: the forced write to port 9 of the switch, whose
result is dropped, and `return 0`. The result is `none` when the write hangs
in a busy-wait loop. -/
def forcePort (dev : Device σ) (fuel : Nat) (w : World σ) : World σ × Option Int :=
  ((writereg dev fuel MDIO_USERACCESS0_OFFSET 25 1 0x003D w).1,
   (writereg dev fuel MDIO_USERACCESS0_OFFSET 25 1 0x003D w).2.map (fun _ => 0))

/-- The function `miiInit`. -/
def miiInit (dev : Device σ) (os : Os) (fuel : Nat) (w : World σ) : World σ × Option Int :=
  match map_base os MDIO_BASE_TARGET w with
  | (w1, none) => (say Tok.errInit { w1 with mdiobase := none }, some (-1))
  | (w1, some base) =>
    if (findPhy dev (enableCtrl dev { w1 with mdiobase := some base })).phy_address = 32 then
      (say Tok.noPhy (findPhy dev (enableCtrl dev { w1 with mdiobase := some base })), some (-1))
    else
      forcePort dev fuel
        (say (Tok.phyAddr (findPhy dev (enableCtrl dev { w1 with mdiobase := some base })).phy_address)
          (findPhy dev (enableCtrl dev { w1 with mdiobase := some base })))

/-- The world after `map_base` has mapped `MDIO_BASE_TARGET` and `miiInit` has
set `mdiobase`. -/
def afterMap (w : World σ) : World σ :=
  { w with sys := w.sys ++ [Syscall.openMem,
             Syscall.mmap MAP_SIZE (MDIO_BASE_TARGET % WORD), Syscall.close],
           mdiobase := some (MDIO_BASE_TARGET % WORD) }

end Run

/-! ## A simulated controller -/

/-- Modelled from the spec: the simulated controller of its testable
properties, which the source does not contain. `latency` is the number of reads of
the user-access register after a command that still show GO set, and
`status` gives bits 16..30 of the word the register holds once the command
has completed (the ACK bit among them). -/
structure SimCfg where
  latency : Nat
  status : Nat → Nat

/-- Modelled from the spec: the state of the simulated register window, a plain
in-memory word array plus a controller. `mem` holds the plain registers of the
window, `cmd` the command in flight, `result` the word the user-access
register shows once idle, `busy` the reads that still show the command, and
`phy` the registers of the devices on the bus. -/
structure Sim where
  mem : Nat → Nat
  cmd : Nat
  result : Nat
  busy : Nat
  phy : Nat → Nat → Nat

/-- Modelled from the spec: the simulated controller as a register window. A
stored command with GO set starts a transaction, and the register shows the
command, GO set, for `latency` reads and then the completed word, GO clear. A
write puts its data into the addressed register, and the completed word
carries the data field of that register, so written values are echoed. -/
def simDevice (cfg : SimCfg) : Device Sim where
  load off s :=
    if off = MDIO_USERACCESS0_OFFSET then
      if s.busy = 0 then (s.result, s) else (s.cmd, { s with busy := s.busy - 1 })
    else
      (s.mem off, s)
  store off v s :=
    if off = MDIO_USERACCESS0_OFFSET then
      if v &&& MDIO_USERACCESS0_GO_BIT ≠ 0 then
        if v &&& MDIO_USERACCESS0_WRITE_BIT ≠ 0 then
          { s with cmd := v, busy := cfg.latency,
                   phy := fun a r =>
                     if a = (v >>> 16) &&& 31 ∧ r = (v >>> 21) &&& 31 then v &&& 0xFFFF
                     else s.phy a r,
                   result := (cfg.status v &&& 0x7FFF0000) ||| (v &&& 0xFFFF) }
        else
          { s with cmd := v, busy := cfg.latency,
                   result := (cfg.status v &&& 0x7FFF0000)
                     ||| (s.phy ((v >>> 16) &&& 31) ((v >>> 21) &&& 31) % HALF) }
      else
        { s with result := v, busy := 0 }
    else
      { s with mem := fun o => if o = off then v else s.mem o }

/-- The simulated controller is idle: no command in flight and GO clear. -/
def Sim.idle (s : Sim) : Prop := s.busy = 0 ∧ s.result < 2147483648

/-- A world at program start around a device state. -/
def World.start {σ : Type} (s : σ) : World σ :=
  { hw := s, bus := [], out := [], sys := [], mdiobase := none, phy_address := 0 }

/-- The words stored to byte offset `off`, oldest first. -/
def storesAt (off : Nat) : List Event → List Nat
  | [] => []
  | Event.store o v :: es => if o = off then v :: storesAt off es else storesAt off es
  | Event.load _ _ :: es => storesAt off es

/-- The words loaded from byte offset `off`, oldest first. -/
def loadsAt (off : Nat) : List Event → List Nat
  | [] => []
  | Event.load o v :: es => if o = off then v :: loadsAt off es else loadsAt off es
  | Event.store _ _ :: es => loadsAt off es

/-- A simulated controller at rest whose registers all hold zero. -/
def Sim.zero : Sim :=
  { mem := fun _ => 0, cmd := 0, result := 0, busy := 0, phy := fun _ _ => 0 }

/-- The acknowledgements the program reported, oldest first: `true` for each
printed `ACK`, `false` for each printed `NAK`. -/
def ackReports : List Tok → List Bool
  | [] => []
  | Tok.ack :: ts => true :: ackReports ts
  | Tok.nak :: ts => false :: ackReports ts
  | _ :: ts => ackReports ts

/-- The simulated controller once the command in flight has completed. -/
def Sim.settle (s : Sim) : Sim := { s with busy := 0 }

/-- What the simulated controller needs to make progress: the completed word
has GO clear, and a command in flight has GO set. -/
def Sim.ok (s : Sim) : Prop :=
  s.result < 2147483648 ∧ (s.busy ≠ 0 → (s.cmd % WORD) &&& MDIO_USERACCESS0_GO_BIT ≠ 0)

/-- What the register at offset `ua` does under successive loads, with no
program in between: the number of loads that show GO set before the first
load that shows GO clear, among the first `n` loads; `none` when all `n`
loads show GO set. -/
def firstClear {σ : Type} (dev : Device σ) (ua : Nat) : Nat → σ → Option Nat
  | 0, _ => none
  | n + 1, s =>
    if ((dev.load ua s).1 % WORD) &&& MDIO_USERACCESS0_GO_BIT = 0 then some 0
    else (firstClear dev ua n (dev.load ua s).2).map Nat.succ

/-- Modelled from the spec: a controller that never clears its GO bit, the
hazard of its unbounded polling loops. Every load shows GO set and stores are
ignored. -/
def stuckDevice : Device Unit where
  load _ s := (0x80000000, s)
  store _ _ s := s

/-- Every event of the list is a load from offset `ua`. -/
def onlyLoads (ua : Nat) (l : List Event) : Prop :=
  ∀ e ∈ l, ∃ v, e = Event.load ua v

/-- Every event of the list is a load from offset `ua` that showed GO set. -/
def allBusy (ua : Nat) (l : List Event) : Prop :=
  ∀ e ∈ l, ∃ v, e = Event.load ua v ∧ v &&& MDIO_USERACCESS0_GO_BIT ≠ 0

/-- Some load from offset `ua` in the list showed GO clear. -/
def sawGoClear (ua : Nat) (l : List Event) : Prop :=
  ∃ v, Event.load ua v ∈ l ∧ v &&& MDIO_USERACCESS0_GO_BIT = 0

/-! ## Facts about bits -/

theorem land_two_pow_eq_zero (v n : Nat) : v &&& 2 ^ n = 0 ↔ v.testBit n = false := by
  constructor
  · intro h
    have := congrArg (fun x => x.testBit n) h
    simpa [Nat.testBit_and, Nat.testBit_two_pow_self] using this
  · intro h
    apply Nat.eq_of_testBit_eq
    intro i
    simp only [Nat.testBit_and, Nat.testBit_two_pow, Nat.zero_testBit]
    by_cases hi : n = i
    · subst hi; simp [h]
    · simp [hi]

theorem GO_eq : MDIO_USERACCESS0_GO_BIT = 2 ^ 31 := by decide

theorem WRITE_eq : MDIO_USERACCESS0_WRITE_BIT = 2 ^ 30 := by decide

theorem ACK_eq : MDIO_USERACCESS0_ACK_BIT = 2 ^ 29 := by decide

theorem WORD_eq : WORD = 2 ^ 32 := by decide

theorem go_clear_of_lt {v : Nat} (h : v < 2147483648) : v &&& MDIO_USERACCESS0_GO_BIT = 0 := by
  rw [GO_eq, land_two_pow_eq_zero]
  exact Nat.testBit_eq_false_of_lt (by simpa using h)

theorem cmdWord_lt (phy_address reg writeflag writeval : Nat) :
    cmdWord phy_address reg writeflag writeval < WORD := by
  unfold cmdWord
  split <;> exact Nat.mod_lt _ (by decide)

theorem cmdWord_mod (phy_address reg writeflag writeval : Nat) :
    cmdWord phy_address reg writeflag writeval % WORD
      = cmdWord phy_address reg writeflag writeval :=
  Nat.mod_eq_of_lt (cmdWord_lt _ _ _ _)

theorem cmdWord_go (phy_address reg writeflag writeval : Nat) :
    cmdWord phy_address reg writeflag writeval &&& MDIO_USERACCESS0_GO_BIT ≠ 0 := by
  unfold cmdWord
  split
  · rw [Ne, GO_eq, WORD_eq, land_two_pow_eq_zero, Nat.testBit_mod_two_pow]
    simp only [Nat.testBit_or, Nat.testBit_two_pow_self]
    simp
  · rw [Ne, GO_eq, WORD_eq, land_two_pow_eq_zero, Nat.testBit_mod_two_pow]
    simp only [Nat.testBit_or, Nat.testBit_two_pow_self]
    simp

/-- The write command word for in-range arguments, without truncation. -/
theorem cmdWord_write (phy_address reg data : Nat) (hp : phy_address ≤ 31) (hr : reg ≤ 31)
    (hd : data ≤ 65535) :
    cmdWord phy_address reg 1 (data % HALF)
      = MDIO_USERACCESS0_GO_BIT ||| MDIO_USERACCESS0_WRITE_BIT ||| (reg <<< 21)
          ||| (phy_address <<< 16) ||| data := by
  have e1 : reg % HALF = reg := Nat.mod_eq_of_lt (by unfold HALF; omega)
  have e2 : phy_address % HALF = phy_address := Nat.mod_eq_of_lt (by unfold HALF; omega)
  have e3 : data % HALF = data := Nat.mod_eq_of_lt (by unfold HALF; omega)
  have e4 : data % WORD = data := Nat.mod_eq_of_lt (by unfold WORD; omega)
  have h1 : reg <<< 21 < 2 ^ 32 := by rw [Nat.shiftLeft_eq]; omega
  have h2 : phy_address <<< 16 < 2 ^ 32 := by rw [Nat.shiftLeft_eq]; omega
  have h3 : data < 2 ^ 32 := by omega
  have hlt : MDIO_USERACCESS0_GO_BIT ||| MDIO_USERACCESS0_WRITE_BIT ||| (reg <<< 21)
      ||| (phy_address <<< 16) ||| data < 2 ^ 32 :=
    Nat.or_lt_two_pow (Nat.or_lt_two_pow (Nat.or_lt_two_pow
      (Nat.or_lt_two_pow (by decide) (by decide)) h1) h2) h3
  unfold cmdWord
  rw [if_pos (by decide), e3, e1, e2, e4, WORD_eq]
  exact Nat.mod_eq_of_lt hlt

/-- The read command word for in-range arguments, without truncation. -/
theorem cmdWord_read (phy_address reg : Nat) (hp : phy_address ≤ 31) (hr : reg ≤ 31) :
    cmdWord phy_address reg 0 0
      = MDIO_USERACCESS0_GO_BIT ||| (reg <<< 21) ||| (phy_address <<< 16) := by
  have e1 : reg % HALF = reg := Nat.mod_eq_of_lt (by unfold HALF; omega)
  have e2 : phy_address % HALF = phy_address := Nat.mod_eq_of_lt (by unfold HALF; omega)
  have h1 : reg <<< 21 < 2 ^ 32 := by rw [Nat.shiftLeft_eq]; omega
  have h2 : phy_address <<< 16 < 2 ^ 32 := by rw [Nat.shiftLeft_eq]; omega
  have hlt : MDIO_USERACCESS0_GO_BIT ||| (reg <<< 21) ||| (phy_address <<< 16) < 2 ^ 32 :=
    Nat.or_lt_two_pow (Nat.or_lt_two_pow (by decide) h1) h2
  unfold cmdWord
  rw [if_neg (by decide), e1, e2, WORD_eq]
  exact Nat.mod_eq_of_lt hlt

theorem read_word_no_write (phy_address reg : Nat) (hp : phy_address ≤ 31) (hr : reg ≤ 31) :
    (MDIO_USERACCESS0_GO_BIT ||| (reg <<< 21) ||| (phy_address <<< 16))
      &&& MDIO_USERACCESS0_WRITE_BIT = 0 := by
  rw [GO_eq, WRITE_eq, land_two_pow_eq_zero]
  simp only [Nat.testBit_or, Nat.testBit_shiftLeft, Nat.testBit_two_pow]
  have h1 : reg.testBit 9 = false := Nat.testBit_eq_false_of_lt (by omega)
  have h2 : phy_address.testBit 14 = false := Nat.testBit_eq_false_of_lt (by omega)
  simp [h1, h2]

theorem read_word_no_data (phy_address reg : Nat) :
    (MDIO_USERACCESS0_GO_BIT ||| (reg <<< 21) ||| (phy_address <<< 16)) &&& 0xFFFF = 0 := by
  apply Nat.eq_of_testBit_eq
  intro i
  have e : (0xFFFF : Nat) = 2 ^ 16 - 1 := by norm_num
  rw [e, GO_eq]
  simp only [Nat.testBit_and, Nat.testBit_or, Nat.testBit_shiftLeft, Nat.testBit_two_pow,
    Nat.testBit_two_pow_sub_one, Nat.zero_testBit]
  by_cases h : i < 16
  · have h1 : ¬ (31 = i) := by omega
    have h2 : ¬ (i ≥ 21) := by omega
    have h3 : ¬ (i ≥ 16) := by omega
    simp [h1, h2, h3]
  · simp [h]

theorem write_word_sum (phy_address reg data : Nat) (hp : phy_address ≤ 31) (hr : reg ≤ 31)
    (hd : data ≤ 65535) :
    MDIO_USERACCESS0_GO_BIT ||| MDIO_USERACCESS0_WRITE_BIT ||| (reg <<< 21)
        ||| (phy_address <<< 16) ||| data
      = 2147483648 + 1073741824 + reg * 2097152 + phy_address * 65536 + data := by
  have e1 : phy_address <<< 16 ||| data = 2 ^ 16 * phy_address + data := by
    rw [Nat.shiftLeft_eq, Nat.mul_comm, ← Nat.mul_add_lt_is_or (by omega)]
  have e2 : reg <<< 21 ||| (2 ^ 16 * phy_address + data)
      = 2 ^ 21 * reg + (2 ^ 16 * phy_address + data) := by
    rw [Nat.shiftLeft_eq, Nat.mul_comm, ← Nat.mul_add_lt_is_or (by omega)]
  have e3 : (1 <<< 30) ||| (2 ^ 21 * reg + (2 ^ 16 * phy_address + data))
      = 2 ^ 30 * 1 + (2 ^ 21 * reg + (2 ^ 16 * phy_address + data)) := by
    rw [Nat.shiftLeft_eq, Nat.mul_comm, ← Nat.mul_add_lt_is_or (by omega)]
  have e4 : (1 <<< 31) ||| (2 ^ 30 * 1 + (2 ^ 21 * reg + (2 ^ 16 * phy_address + data)))
      = 2 ^ 31 * 1 + (2 ^ 30 * 1 + (2 ^ 21 * reg + (2 ^ 16 * phy_address + data))) := by
    rw [Nat.shiftLeft_eq, Nat.mul_comm, ← Nat.mul_add_lt_is_or (by omega)]
  unfold MDIO_USERACCESS0_GO_BIT MDIO_USERACCESS0_WRITE_BIT
  rw [Nat.lor_assoc, Nat.lor_assoc, Nat.lor_assoc, e1, e2, e3, e4]
  omega

theorem read_word_sum (phy_address reg : Nat) (hp : phy_address ≤ 31) (hr : reg ≤ 31) :
    MDIO_USERACCESS0_GO_BIT ||| (reg <<< 21) ||| (phy_address <<< 16)
      = 2147483648 + reg * 2097152 + phy_address * 65536 := by
  have e1 : phy_address <<< 16 = 2 ^ 16 * phy_address := by rw [Nat.shiftLeft_eq, Nat.mul_comm]
  have e2 : reg <<< 21 ||| (2 ^ 16 * phy_address) = 2 ^ 21 * reg + (2 ^ 16 * phy_address) := by
    rw [Nat.shiftLeft_eq, Nat.mul_comm, ← Nat.mul_add_lt_is_or (by omega)]
  have e4 : (1 <<< 31) ||| (2 ^ 21 * reg + (2 ^ 16 * phy_address))
      = 2 ^ 31 * 1 + (2 ^ 21 * reg + (2 ^ 16 * phy_address)) := by
    rw [Nat.shiftLeft_eq, Nat.mul_comm, ← Nat.mul_add_lt_is_or (by omega)]
  unfold MDIO_USERACCESS0_GO_BIT
  rw [Nat.lor_assoc, e1, e2, e4]
  omega

/-- The address, register and data fields of a word given as a sum. -/
theorem fields_of_sum (c top phy_address reg data : Nat) (hp : phy_address ≤ 31)
    (hr : reg ≤ 31) (hd : data ≤ 65535)
    (h : c = top * 67108864 + reg * 2097152 + phy_address * 65536 + data) :
    (c >>> 16) &&& 31 = phy_address ∧ (c >>> 21) &&& 31 = reg ∧ c &&& 0xFFFF = data := by
  have a : ∀ x : Nat, x &&& 31 = x % 32 := fun x => Nat.and_pow_two_sub_one_eq_mod x 5
  have b : ∀ x : Nat, x &&& 0xFFFF = x % 65536 := fun x => Nat.and_pow_two_sub_one_eq_mod x 16
  rw [a, a, b, Nat.shiftRight_eq_div_pow, Nat.shiftRight_eq_div_pow]
  subst h
  refine ⟨?_, ?_, ?_⟩ <;> omega

theorem write_word_has_write (x y z : Nat) :
    (MDIO_USERACCESS0_GO_BIT ||| MDIO_USERACCESS0_WRITE_BIT ||| x ||| y ||| z)
      &&& MDIO_USERACCESS0_WRITE_BIT ≠ 0 := by
  rw [Ne, WRITE_eq, land_two_pow_eq_zero]
  simp only [Nat.testBit_or, Nat.testBit_two_pow_self]
  simp

theorem data_field_of_or (x y : Nat) (hy : y ≤ 65535) : ((x &&& 0x7FFF0000) ||| y) &&& 0xFFFF = y := by
  have b : ∀ z : Nat, z &&& 0xFFFF = z % 65536 := fun z => Nat.and_pow_two_sub_one_eq_mod z 16
  have e : (65536 : Nat) = 2 ^ 16 := by norm_num
  rw [b, e]
  apply Nat.eq_of_testBit_eq
  intro i
  rw [Nat.testBit_mod_two_pow, Nat.testBit_or, Nat.testBit_and]
  by_cases h : i < 16
  · have h0 : Nat.testBit 0x7FFF0000 i = false := by
      interval_cases i <;> decide
    simp [h, h0]
  · have h0 : y.testBit i = false :=
      Nat.testBit_eq_false_of_lt
        (lt_of_lt_of_le (by omega : y < 2 ^ 16) (Nat.pow_le_pow_right (by norm_num) (by omega)))
    simp [h, h0]

theorem ack_clear_of_or (x y : Nat) (hx : x &&& MDIO_USERACCESS0_ACK_BIT = 0) (hy : y < 65536) :
    ((x &&& 0x7FFF0000) ||| y) &&& MDIO_USERACCESS0_ACK_BIT = 0 := by
  rw [ACK_eq, land_two_pow_eq_zero] at *
  have h0 : y.testBit 29 = false :=
    Nat.testBit_eq_false_of_lt (lt_of_lt_of_le hy (by norm_num))
  simp [Nat.testBit_or, Nat.testBit_and, hx, h0]

/-! ## The bus log of `accessreg` on any device -/

section Shape

variable {σ : Type}

theorem storesAt_append (off : Nat) (a b : List Event) :
    storesAt off (a ++ b) = storesAt off a ++ storesAt off b := by
  induction a with
  | nil => rfl
  | cons e es ih =>
    cases e with
    | load o v => simpa [storesAt] using ih
    | store o v =>
      by_cases h : o = off
      · simp [storesAt, h, ih]
      · simp [storesAt, h, ih]

theorem storesAt_onlyLoads (off ua : Nat) (l : List Event) (h : onlyLoads ua l) :
    storesAt off l = [] := by
  induction l with
  | nil => rfl
  | cons e es ih =>
    obtain ⟨v, hv⟩ := h e (List.mem_cons_self _ _)
    subst hv
    simpa [storesAt] using ih (fun e he => h e (List.mem_cons_of_mem _ he))

theorem onlyLoads_of_allBusy {ua : Nat} {l : List Event} (h : allBusy ua l) : onlyLoads ua l :=
  fun e he => (h e he).imp fun _ hv => hv.1

theorem onlyLoads_append {ua : Nat} {a b : List Event} (ha : onlyLoads ua a)
    (hb : onlyLoads ua b) : onlyLoads ua (a ++ b) := by
  intro e he
  rcases List.mem_append.1 he with h | h
  · exact ha e h
  · exact hb e h

theorem onlyLoads_single (ua v : Nat) : onlyLoads ua [Event.load ua v] := by
  intro e he
  exact ⟨v, List.mem_singleton.1 he⟩

theorem onlyLoads_nil (ua : Nat) : onlyLoads ua [] := by
  intro e he
  cases he

theorem allBusy_nil (ua : Nat) : allBusy ua [] := by
  intro e he
  cases he

theorem waitGo_succ (dev : Device σ) (ua fuel : Nat) (w : World σ) :
    waitGo dev ua (fuel + 1) w
      = if (ld dev ua w).1 &&& MDIO_USERACCESS0_GO_BIT ≠ 0 then
          waitGo dev ua fuel (ld dev ua w).2
        else ((ld dev ua w).2, true) := rfl

/-- The busy-wait loop only loads: a run of loads that show GO set, ended by
one load that shows GO clear exactly when the loop is left. -/
theorem waitGo_bus (dev : Device σ) (ua fuel : Nat) (w : World σ) :
    ∃ busy, allBusy ua busy ∧
      (((waitGo dev ua fuel w).2 = false ∧ (waitGo dev ua fuel w).1.bus = w.bus ++ busy) ∨
       ((waitGo dev ua fuel w).2 = true ∧ ∃ c, c &&& MDIO_USERACCESS0_GO_BIT = 0 ∧
          (waitGo dev ua fuel w).1.bus = w.bus ++ busy ++ [Event.load ua c])) := by
  induction fuel generalizing w with
  | zero => exact ⟨[], allBusy_nil ua, Or.inl ⟨rfl, by simp [waitGo]⟩⟩
  | succ n ih =>
    by_cases hgo : (ld dev ua w).1 &&& MDIO_USERACCESS0_GO_BIT ≠ 0
    · obtain ⟨busy, hb, hcase⟩ := ih (ld dev ua w).2
      refine ⟨Event.load ua (ld dev ua w).1 :: busy, ?_, ?_⟩
      · intro e he
        rcases List.mem_cons.1 he with h | h
        · exact ⟨_, h, hgo⟩
        · exact hb e h
      · have hbus : (ld dev ua w).2.bus = w.bus ++ [Event.load ua (ld dev ua w).1] := rfl
        rw [waitGo_succ, if_pos hgo]
        rcases hcase with ⟨h1, h2⟩ | ⟨h1, c, hc, h2⟩
        · exact Or.inl ⟨h1, by rw [h2, hbus]; simp⟩
        · exact Or.inr ⟨h1, c, hc, by rw [h2, hbus]; simp⟩
    · refine ⟨[], allBusy_nil ua, Or.inr ?_⟩
      rw [waitGo_succ, if_neg hgo]
      exact ⟨rfl, (ld dev ua w).1, not_not.1 hgo, by simp [ld]⟩

/-- The busy-wait loop against what the register does: with `fuel` loads all
showing GO set the loop runs out after exactly `fuel` loads; otherwise it is
left at the first load that shows GO clear. -/
theorem waitGo_first (dev : Device σ) (ua fuel : Nat) (w : World σ) :
    ∃ busy, allBusy ua busy ∧
      (((waitGo dev ua fuel w).2 = false ∧ firstClear dev ua fuel w.hw = none ∧
          busy.length = fuel ∧ (waitGo dev ua fuel w).1.bus = w.bus ++ busy) ∨
       ((waitGo dev ua fuel w).2 = true ∧ firstClear dev ua fuel w.hw = some busy.length ∧
          ∃ c, c &&& MDIO_USERACCESS0_GO_BIT = 0 ∧
            (waitGo dev ua fuel w).1.bus = w.bus ++ busy ++ [Event.load ua c])) := by
  induction fuel generalizing w with
  | zero => exact ⟨[], allBusy_nil ua, Or.inl ⟨rfl, rfl, rfl, by simp [waitGo]⟩⟩
  | succ n ih =>
    have hv : (ld dev ua w).1 = (dev.load ua w.hw).1 % WORD := rfl
    have hs : (ld dev ua w).2.hw = (dev.load ua w.hw).2 := rfl
    have hbus : (ld dev ua w).2.bus = w.bus ++ [Event.load ua (ld dev ua w).1] := rfl
    by_cases hgo : (ld dev ua w).1 &&& MDIO_USERACCESS0_GO_BIT ≠ 0
    · obtain ⟨busy, hb, hcase⟩ := ih (ld dev ua w).2
      have hfc : firstClear dev ua (n + 1) w.hw
          = (firstClear dev ua n (ld dev ua w).2.hw).map Nat.succ := by
        rw [hs]
        show (if ((dev.load ua w.hw).1 % WORD) &&& MDIO_USERACCESS0_GO_BIT = 0 then some 0
          else (firstClear dev ua n (dev.load ua w.hw).2).map Nat.succ) = _
        rw [if_neg (by rw [← hv]; exact hgo)]
      refine ⟨Event.load ua (ld dev ua w).1 :: busy, ?_, ?_⟩
      · intro e he
        rcases List.mem_cons.1 he with h | h
        · exact ⟨_, h, hgo⟩
        · exact hb e h
      · rw [waitGo_succ, if_pos hgo, hfc]
        rcases hcase with ⟨h1, h2, h3, h4⟩ | ⟨h1, h2, c, hc, h4⟩
        · exact Or.inl ⟨h1, by rw [h2]; rfl, by rw [List.length_cons, h3],
            by rw [h4, hbus]; simp⟩
        · exact Or.inr ⟨h1, by rw [h2]; rfl, c, hc, by rw [h4, hbus]; simp⟩
    · refine ⟨[], allBusy_nil ua, Or.inr ?_⟩
      rw [waitGo_succ, if_neg hgo]
      refine ⟨rfl, ?_, (ld dev ua w).1, not_not.1 hgo, by simp [ld]⟩
      show (if ((dev.load ua w.hw).1 % WORD) &&& MDIO_USERACCESS0_GO_BIT = 0 then some 0
        else (firstClear dev ua n (dev.load ua w.hw).2).map Nat.succ) = _
      rw [if_pos (by rw [← hv]; exact not_not.1 hgo)]
      rfl

/-- Lines 136-144 against what the register does: the test and the loop
together make up to `fuel + 1` loads. -/
theorem waitIdle_first (dev : Device σ) (fuel ua : Nat) (w : World σ) :
    ∃ busy, allBusy ua busy ∧
      (((waitIdle dev fuel ua w).2 = false ∧ firstClear dev ua (fuel + 1) w.hw = none ∧
          busy.length = fuel + 1 ∧ (waitIdle dev fuel ua w).1.bus = w.bus ++ busy) ∨
       ((waitIdle dev fuel ua w).2 = true ∧
          firstClear dev ua (fuel + 1) w.hw = some busy.length ∧
          ∃ c, c &&& MDIO_USERACCESS0_GO_BIT = 0 ∧
            (waitIdle dev fuel ua w).1.bus = w.bus ++ busy ++ [Event.load ua c])) := by
  have hv : (ld dev ua w).1 = (dev.load ua w.hw).1 % WORD := rfl
  by_cases hgo : (ld dev ua w).1 &&& MDIO_USERACCESS0_GO_BIT ≠ 0
  · obtain ⟨busy, hb, hcase⟩ := waitGo_first dev ua fuel (say Tok.wait (ld dev ua w).2)
    have hbus : (say Tok.wait (ld dev ua w).2).bus = w.bus ++ [Event.load ua (ld dev ua w).1] := rfl
    have hs : (say Tok.wait (ld dev ua w).2).hw = (dev.load ua w.hw).2 := rfl
    have hfc : firstClear dev ua (fuel + 1) w.hw
        = (firstClear dev ua fuel (say Tok.wait (ld dev ua w).2).hw).map Nat.succ := by
      rw [hs]
      show (if ((dev.load ua w.hw).1 % WORD) &&& MDIO_USERACCESS0_GO_BIT = 0 then some 0
        else (firstClear dev ua fuel (dev.load ua w.hw).2).map Nat.succ) = _
      rw [if_neg (by rw [← hv]; exact hgo)]
    refine ⟨Event.load ua (ld dev ua w).1 :: busy, ?_, ?_⟩
    · intro e he
      rcases List.mem_cons.1 he with h | h
      · exact ⟨_, h, hgo⟩
      · exact hb e h
    · unfold waitIdle
      rw [if_pos hgo, hfc]
      rcases hcase with ⟨h1, h2, h3, h4⟩ | ⟨h1, h2, c, hc, h4⟩
      · exact Or.inl ⟨h1, by rw [h2]; rfl, by rw [List.length_cons, h3],
          by rw [h4, hbus]; simp⟩
      · exact Or.inr ⟨h1, by rw [h2]; rfl, c, hc, by rw [h4, hbus]; simp⟩
  · refine ⟨[], allBusy_nil ua, Or.inr ?_⟩
    unfold waitIdle
    rw [if_neg hgo]
    refine ⟨rfl, ?_, (ld dev ua w).1, not_not.1 hgo, by simp [ld, say]⟩
    show (if ((dev.load ua w.hw).1 % WORD) &&& MDIO_USERACCESS0_GO_BIT = 0 then some 0
      else (firstClear dev ua fuel (dev.load ua w.hw).2).map Nat.succ) = _
    rw [if_pos (by rw [← hv]; exact not_not.1 hgo)]
    rfl

theorem waitIdle_bus (dev : Device σ) (fuel ua : Nat) (w : World σ) :
    ∃ busy, allBusy ua busy ∧
      (((waitIdle dev fuel ua w).2 = false ∧ (waitIdle dev fuel ua w).1.bus = w.bus ++ busy) ∨
       ((waitIdle dev fuel ua w).2 = true ∧ ∃ c, c &&& MDIO_USERACCESS0_GO_BIT = 0 ∧
          (waitIdle dev fuel ua w).1.bus = w.bus ++ busy ++ [Event.load ua c])) := by
  by_cases hgo : (ld dev ua w).1 &&& MDIO_USERACCESS0_GO_BIT ≠ 0
  · obtain ⟨busy, hb, hcase⟩ := waitGo_bus dev ua fuel (say Tok.wait (ld dev ua w).2)
    have hbus : (say Tok.wait (ld dev ua w).2).bus = w.bus ++ [Event.load ua (ld dev ua w).1] := rfl
    refine ⟨Event.load ua (ld dev ua w).1 :: busy, ?_, ?_⟩
    · intro e he
      rcases List.mem_cons.1 he with h | h
      · exact ⟨_, h, hgo⟩
      · exact hb e h
    · unfold waitIdle
      rw [if_pos hgo]
      rcases hcase with ⟨h1, h2⟩ | ⟨h1, c, hc, h2⟩
      · exact Or.inl ⟨h1, by rw [h2, hbus]; simp⟩
      · exact Or.inr ⟨h1, c, hc, by rw [h2, hbus]; simp⟩
  · refine ⟨[], allBusy_nil ua, Or.inr ?_⟩
    unfold waitIdle
    rw [if_neg hgo]
    exact ⟨rfl, (ld dev ua w).1, not_not.1 hgo, by simp [ld, say]⟩

theorem sendCmd_bus (dev : Device σ) (ua phy_address reg writeflag writeval : Nat)
    (w : World σ) :
    ∃ extra post, onlyLoads ua extra ∧ extra.length ≤ 1 ∧ onlyLoads ua post ∧
      (sendCmd dev ua phy_address reg writeflag writeval w).bus
        = w.bus ++ extra ++ [Event.store ua (cmdWord phy_address reg writeflag writeval)]
            ++ post := by
  by_cases hw : writeflag % 256 ≠ 0
  · refine ⟨[Event.load ua (ld dev ua w).1], [], onlyLoads_single _ _, le_refl _,
      onlyLoads_nil _, ?_⟩
    unfold sendCmd
    rw [if_pos hw]
    simp [sto, say, ld, cmdWord_mod]
  · refine ⟨[], [Event.load ua
        (ld dev ua (sto dev ua (cmdWord phy_address reg writeflag writeval) w)).1],
      onlyLoads_nil _, Nat.zero_le _, onlyLoads_single _ _, ?_⟩
    unfold sendCmd
    rw [if_neg hw]
    simp [sto, say, ld, cmdWord_mod]

theorem checkAck_bus (dev : Device σ) (fuel ua : Nat) (w : World σ) :
    ∃ evs, onlyLoads ua evs ∧ (checkAck dev fuel ua w).1.bus = w.bus ++ evs := by
  by_cases hack : (ld dev ua w).1 &&& MDIO_USERACCESS0_ACK_BIT ≠ 0
  · obtain ⟨busy, hb, hcase⟩ := waitGo_bus dev ua fuel (say Tok.ack (ld dev ua w).2)
    have hbus : (say Tok.ack (ld dev ua w).2).bus = w.bus ++ [Event.load ua (ld dev ua w).1] := rfl
    unfold checkAck
    rw [if_pos hack]
    rcases hcase with ⟨_, h2⟩ | ⟨_, c, _, h2⟩
    · exact ⟨Event.load ua (ld dev ua w).1 :: busy,
        onlyLoads_append (onlyLoads_single _ _) (onlyLoads_of_allBusy hb),
        by rw [h2, hbus]; simp⟩
    · exact ⟨Event.load ua (ld dev ua w).1 :: (busy ++ [Event.load ua c]),
        onlyLoads_append (onlyLoads_single _ _)
          (onlyLoads_append (onlyLoads_of_allBusy hb) (onlyLoads_single _ _)),
        by rw [h2, hbus]; simp⟩
  · unfold checkAck
    rw [if_neg hack]
    exact ⟨[Event.load ua (ld dev ua w).1], onlyLoads_single _ _, rfl⟩

theorem fetchData_bus (dev : Device σ) (ua writeflag writeval : Nat) (w : World σ) :
    (fetchData dev ua writeflag writeval w).1.bus = w.bus ++ [Event.load ua (ld dev ua w).1] := by
  unfold fetchData
  by_cases hw : writeflag % 256 ≠ 0
  · simp [hw, say, ld]
  · simp [hw, say, ld]

/-- The shape of the bus log of one call of `accessreg`, on any device and
for any fuel, against what the register does. When the first `fuel + 1` loads
all show GO set the call hangs before the store, having made exactly those
loads. Otherwise it makes the loads that show GO set, the first one that shows
GO clear, at most one more load, the store of the command word, and then only
loads. -/
theorem accessreg_shape_first (dev : Device σ) (fuel ua phy_address reg writeflag writeval : Nat)
    (w : World σ) :
    ((accessreg dev fuel ua phy_address reg writeflag writeval w).2 = none ∧
      firstClear dev ua (fuel + 1) w.hw = none ∧
      ∃ busy, allBusy ua busy ∧ busy.length = fuel + 1 ∧
        (accessreg dev fuel ua phy_address reg writeflag writeval w).1.bus = w.bus ++ busy) ∨
    (∃ busy c extra post, firstClear dev ua (fuel + 1) w.hw = some busy.length ∧
      allBusy ua busy ∧ c &&& MDIO_USERACCESS0_GO_BIT = 0 ∧
      onlyLoads ua extra ∧ extra.length ≤ 1 ∧ onlyLoads ua post ∧
      (accessreg dev fuel ua phy_address reg writeflag writeval w).1.bus
        = w.bus ++ busy ++ [Event.load ua c] ++ extra
            ++ [Event.store ua (cmdWord phy_address reg writeflag writeval)] ++ post ∧
      (∀ d, (accessreg dev fuel ua phy_address reg writeflag writeval w).2 = some d →
        sawGoClear ua post ∧
          ∃ init v, post = init ++ [Event.load ua v] ∧ v < WORD ∧ d = toInt32 v)) := by
  obtain ⟨busy, hb, hidle⟩ :=
    waitIdle_first dev fuel ua (say (Tok.hdr (phy_address % HALF) (reg % HALF)) w)
  have hsay : (say (Tok.hdr (phy_address % HALF) (reg % HALF)) w).bus = w.bus := rfl
  have hsayhw : (say (Tok.hdr (phy_address % HALF) (reg % HALF)) w).hw = w.hw := rfl
  rw [hsay, hsayhw] at hidle
  rcases h1 : waitIdle dev fuel ua (say (Tok.hdr (phy_address % HALF) (reg % HALF)) w)
    with ⟨w1, b1⟩
  rw [h1] at hidle
  rcases hidle with ⟨hb1, hfc, hlen1, hbus1⟩ | ⟨hb1, hfc, c, hc, hbus1⟩
  · left
    simp only at hb1 hbus1
    subst hb1
    simp only [accessreg, h1]
    exact ⟨trivial, hfc, busy, hb, hlen1, hbus1⟩
  · right
    simp only at hb1 hbus1
    subst hb1
    obtain ⟨extra, post0, hex, hlen, hp0, hbus2⟩ :=
      sendCmd_bus dev ua phy_address reg writeflag writeval w1
    obtain ⟨busy2, hb2, hwait⟩ :=
      waitGo_bus dev ua fuel (sendCmd dev ua phy_address reg writeflag writeval w1)
    rcases h2 : waitGo dev ua fuel (sendCmd dev ua phy_address reg writeflag writeval w1)
      with ⟨w2, b2⟩
    rw [h2] at hwait
    rcases hwait with ⟨hb2', hbus3⟩ | ⟨hb2', c2, hc2, hbus3⟩
    · simp only at hb2' hbus3
      subst hb2'
      refine ⟨busy, c, extra, post0 ++ busy2, hfc, hb, hc, hex, hlen,
        onlyLoads_append hp0 (onlyLoads_of_allBusy hb2), ?_, ?_⟩
      · simp only [accessreg, h1, h2]
        rw [hbus3, hbus2, hbus1]
        simp
      · intro d hd
        simp [accessreg, h1, h2] at hd
    · simp only at hb2' hbus3
      subst hb2'
      obtain ⟨evs, hev, hbus4⟩ := checkAck_bus dev fuel ua w2
      rcases h3 : checkAck dev fuel ua w2 with ⟨w3, b3⟩
      rw [h3] at hbus4
      simp only at hbus4
      cases b3 with
      | false =>
        refine ⟨busy, c, extra, post0 ++ busy2 ++ [Event.load ua c2] ++ evs, hfc, hb, hc, hex, hlen,
          onlyLoads_append (onlyLoads_append (onlyLoads_append hp0 (onlyLoads_of_allBusy hb2))
            (onlyLoads_single _ _)) hev, ?_, ?_⟩
        · simp only [accessreg, h1, h2, h3]
          rw [hbus4, hbus3, hbus2, hbus1]
          simp
        · intro d hd
          simp [accessreg, h1, h2, h3] at hd
      | true =>
        refine ⟨busy, c, extra,
          post0 ++ busy2 ++ [Event.load ua c2] ++ evs ++ [Event.load ua (ld dev ua w3).1],
          hfc, hb, hc, hex, hlen,
          onlyLoads_append (onlyLoads_append (onlyLoads_append (onlyLoads_append hp0
            (onlyLoads_of_allBusy hb2)) (onlyLoads_single _ _)) hev) (onlyLoads_single _ _),
          ?_, ?_⟩
        · simp only [accessreg, h1, h2, h3]
          rw [fetchData_bus, hbus4, hbus3, hbus2, hbus1]
          simp
        · intro d hd
          refine ⟨⟨c2, by simp, hc2⟩, post0 ++ busy2 ++ [Event.load ua c2] ++ evs,
            (ld dev ua w3).1, rfl, Nat.mod_lt _ (by decide), ?_⟩
          simp only [accessreg, h1, h2, h3, fetchData] at hd
          exact (Option.some.inj hd).symm

/-- The shape of the bus log of one call of `accessreg`, on any device and
for any fuel. Either the call hung before the store and only made loads that
showed GO set, or it made loads that showed GO set, one that showed GO clear,
at most one more load, the store of the command word, and then only loads. -/
theorem accessreg_shape (dev : Device σ) (fuel ua phy_address reg writeflag writeval : Nat)
    (w : World σ) :
    ((accessreg dev fuel ua phy_address reg writeflag writeval w).2 = none ∧
      ∃ busy, allBusy ua busy ∧
        (accessreg dev fuel ua phy_address reg writeflag writeval w).1.bus = w.bus ++ busy) ∨
    (∃ busy c extra post, allBusy ua busy ∧ c &&& MDIO_USERACCESS0_GO_BIT = 0 ∧
      onlyLoads ua extra ∧ extra.length ≤ 1 ∧ onlyLoads ua post ∧
      (accessreg dev fuel ua phy_address reg writeflag writeval w).1.bus
        = w.bus ++ busy ++ [Event.load ua c] ++ extra
            ++ [Event.store ua (cmdWord phy_address reg writeflag writeval)] ++ post ∧
      (∀ d, (accessreg dev fuel ua phy_address reg writeflag writeval w).2 = some d →
        sawGoClear ua post ∧
          ∃ init v, post = init ++ [Event.load ua v] ∧ v < WORD ∧ d = toInt32 v)) := by
  rcases accessreg_shape_first dev fuel ua phy_address reg writeflag writeval w with
    ⟨hn, _, busy, hb, _, hbus⟩ | ⟨busy, c, extra, post, _, hrest⟩
  · exact Or.inl ⟨hn, busy, hb, hbus⟩
  · exact Or.inr ⟨busy, c, extra, post, hrest⟩

/-- The stores of one call of `accessreg` to the user-access register: the
command word, once, or nothing when the call hung before the store. -/
theorem accessreg_stores (dev : Device σ) (fuel ua phy_address reg writeflag writeval : Nat)
    (w : World σ) :
    storesAt ua (accessreg dev fuel ua phy_address reg writeflag writeval w).1.bus
        = storesAt ua w.bus ++ [cmdWord phy_address reg writeflag writeval] ∨
    ((accessreg dev fuel ua phy_address reg writeflag writeval w).2 = none ∧
      storesAt ua (accessreg dev fuel ua phy_address reg writeflag writeval w).1.bus
        = storesAt ua w.bus) := by
  rcases accessreg_shape dev fuel ua phy_address reg writeflag writeval w with
    ⟨hn, busy, hb, hbus⟩ | ⟨busy, c, extra, post, hb, _, hex, _, hpost, hbus, _⟩
  · right
    refine ⟨hn, ?_⟩
    rw [hbus, storesAt_append, storesAt_onlyLoads ua ua busy (onlyLoads_of_allBusy hb)]
    simp
  · left
    rw [hbus]
    simp only [storesAt_append, storesAt_onlyLoads ua ua busy (onlyLoads_of_allBusy hb),
      storesAt_onlyLoads ua ua extra hex, storesAt_onlyLoads ua ua post hpost, storesAt,
      if_true, List.append_nil]

theorem accessreg_stores_of_some (dev : Device σ)
    (fuel ua phy_address reg writeflag writeval : Nat) (w : World σ)
    (h : (accessreg dev fuel ua phy_address reg writeflag writeval w).2 ≠ none) :
    storesAt ua (accessreg dev fuel ua phy_address reg writeflag writeval w).1.bus
        = storesAt ua w.bus ++ [cmdWord phy_address reg writeflag writeval] := by
  rcases accessreg_stores dev fuel ua phy_address reg writeflag writeval w with h1 | ⟨h1, _⟩
  · exact h1
  · exact absurd h1 h

theorem stuck_firstClear (ua n : Nat) (u : Unit) : firstClear stuckDevice ua n u = none := by
  induction n with
  | zero => rfl
  | succ k ih =>
    show (if ((0x80000000 : Nat) % WORD) &&& MDIO_USERACCESS0_GO_BIT = 0 then some 0
      else (firstClear stuckDevice ua k u).map Nat.succ) = none
    rw [if_neg (by decide), ih]
    rfl

end Shape

/-! ## `accessreg` on the simulated controller -/

section OnSim

theorem ackReports_append (a b : List Tok) :
    ackReports (a ++ b) = ackReports a ++ ackReports b := by
  induction a with
  | nil => rfl
  | cons t ts ih => cases t <;> simp [ackReports, ih]

theorem loadsAt_append (off : Nat) (a b : List Event) :
    loadsAt off (a ++ b) = loadsAt off a ++ loadsAt off b := by
  induction a with
  | nil => rfl
  | cons e es ih =>
    cases e with
    | store o v => simpa [loadsAt] using ih
    | load o v =>
      by_cases h : o = off
      · simp [loadsAt, h, ih]
      · simp [loadsAt, h, ih]

theorem waitGo_out {σ : Type} (dev : Device σ) (ua fuel : Nat) (w : World σ) :
    (waitGo dev ua fuel w).1.out = w.out := by
  induction fuel generalizing w with
  | zero => rfl
  | succ n ih =>
    rw [waitGo_succ]
    split
    · rw [ih]; rfl
    · rfl

theorem Sim.ok_of_idle {s : Sim} (h : s.idle) : s.ok :=
  ⟨h.2, fun hb => absurd h.1 hb⟩

theorem Sim.settle_of_busy_zero {s : Sim} (h : s.busy = 0) : s.settle = s := by
  cases s
  simp only [Sim.settle] at *
  simp [h]

theorem mod_word_of_lt {v : Nat} (h : v < 2147483648) : v % WORD = v :=
  Nat.mod_eq_of_lt (lt_trans h (by decide))

/-- The busy-wait loop on the simulated controller: it is left after the
reads still owed to the command and one more. -/
theorem sim_waitGo (cfg : SimCfg) (fuel : Nat) (w : World Sim) (hok : w.hw.ok)
    (hf : w.hw.busy < fuel) :
    (waitGo (simDevice cfg) MDIO_USERACCESS0_OFFSET fuel w).2 = true ∧
    (waitGo (simDevice cfg) MDIO_USERACCESS0_OFFSET fuel w).1.hw = w.hw.settle ∧
    (loadsAt MDIO_USERACCESS0_OFFSET
        (waitGo (simDevice cfg) MDIO_USERACCESS0_OFFSET fuel w).1.bus).length
      = (loadsAt MDIO_USERACCESS0_OFFSET w.bus).length + w.hw.busy + 1 := by
  induction fuel generalizing w with
  | zero => exact absurd hf (Nat.not_lt_zero _)
  | succ n ih =>
    by_cases hb : w.hw.busy = 0
    · have hld : (ld (simDevice cfg) MDIO_USERACCESS0_OFFSET w).1 = w.hw.result := by
        simp [ld, simDevice, hb, mod_word_of_lt hok.1]
      have hgo : ¬ ((ld (simDevice cfg) MDIO_USERACCESS0_OFFSET w).1
          &&& MDIO_USERACCESS0_GO_BIT ≠ 0) := by
        rw [hld]; exact not_not.2 (go_clear_of_lt hok.1)
      rw [waitGo_succ, if_neg hgo]
      refine ⟨rfl, ?_, ?_⟩
      · simp [ld, simDevice, hb, Sim.settle_of_busy_zero hb]
      · simp [ld, simDevice, hb, loadsAt_append, loadsAt]
    · have hld : (ld (simDevice cfg) MDIO_USERACCESS0_OFFSET w).1 = w.hw.cmd % WORD := by
        simp [ld, simDevice, hb]
      have hgo : (ld (simDevice cfg) MDIO_USERACCESS0_OFFSET w).1
          &&& MDIO_USERACCESS0_GO_BIT ≠ 0 := by
        rw [hld]; exact hok.2 hb
      have hhw : (ld (simDevice cfg) MDIO_USERACCESS0_OFFSET w).2.hw
          = { w.hw with busy := w.hw.busy - 1 } := by
        simp [ld, simDevice, hb]
      have hbus : (ld (simDevice cfg) MDIO_USERACCESS0_OFFSET w).2.bus
          = w.bus ++ [Event.load MDIO_USERACCESS0_OFFSET (w.hw.cmd % WORD)] := by
        simp [ld, simDevice, hb]
      rw [waitGo_succ, if_pos hgo]
      have hok2 : (ld (simDevice cfg) MDIO_USERACCESS0_OFFSET w).2.hw.ok := by
        rw [hhw]; exact ⟨hok.1, fun _ => hok.2 hb⟩
      have hf2 : (ld (simDevice cfg) MDIO_USERACCESS0_OFFSET w).2.hw.busy < n := by
        rw [hhw]; simp only; omega
      obtain ⟨h1, h2, h3⟩ := ih (ld (simDevice cfg) MDIO_USERACCESS0_OFFSET w).2 hok2 hf2
      refine ⟨h1, ?_, ?_⟩
      · rw [h2, hhw]; rfl
      · rw [h3, hbus, hhw, loadsAt_append]
        simp only [loadsAt, if_true, List.length_append, List.length_singleton]
        omega

theorem toInt32_of_lt {v : Nat} (h : v < 2147483648) : toInt32 v = (v : Int) := by
  unfold toInt32
  rw [mod_word_of_lt h, if_pos h]

/-- A load from the user-access register of an idle simulated controller
shows the completed word and changes nothing. -/
theorem sim_ld_idle (cfg : SimCfg) (w : World Sim) (hb : w.hw.busy = 0)
    (hr : w.hw.result < 2147483648) :
    ld (simDevice cfg) MDIO_USERACCESS0_OFFSET w
      = (w.hw.result,
         { w with bus := w.bus ++ [Event.load MDIO_USERACCESS0_OFFSET w.hw.result] }) := by
  simp [ld, simDevice, hb, mod_word_of_lt hr]

theorem sim_load_idle (cfg : SimCfg) (s : Sim) (hb : s.busy = 0) :
    (simDevice cfg).load MDIO_USERACCESS0_OFFSET s = (s.result, s) := by
  simp [simDevice, hb]

theorem sim_load_busy (cfg : SimCfg) (s : Sim) (hb : s.busy ≠ 0) :
    (simDevice cfg).load MDIO_USERACCESS0_OFFSET s
      = (s.cmd, { s with busy := s.busy - 1 }) := by
  simp [simDevice, hb]

/-- A stored command word starts a transaction on the simulated controller. -/
theorem sim_store_cmd (cfg : SimCfg) (s : Sim) (c : Nat)
    (hc : c &&& MDIO_USERACCESS0_GO_BIT ≠ 0) :
    ((simDevice cfg).store MDIO_USERACCESS0_OFFSET c s).result < 2147483648 ∧
    ((simDevice cfg).store MDIO_USERACCESS0_OFFSET c s).busy = cfg.latency ∧
    ((simDevice cfg).store MDIO_USERACCESS0_OFFSET c s).cmd = c := by
  have hmask : ∀ x y : Nat, y < 65536 → (x &&& 0x7FFF0000) ||| y < 2147483648 := by
    intro x y hy
    have h1 : x &&& 0x7FFF0000 < 2 ^ 31 := lt_of_le_of_lt Nat.and_le_right (by norm_num)
    have h2 : y < 2 ^ 31 := lt_trans hy (by norm_num)
    exact Nat.or_lt_two_pow h1 h2
  have hlow : c &&& 0xFFFF < 65536 := lt_of_le_of_lt Nat.and_le_right (by norm_num)
  by_cases hw : c &&& MDIO_USERACCESS0_WRITE_BIT ≠ 0
  · simp only [simDevice, if_true, if_pos hc, if_pos hw]
    exact ⟨hmask _ _ hlow, trivial, trivial⟩
  · simp only [simDevice, if_true, if_pos hc, if_neg hw]
    exact ⟨hmask _ _ (Nat.mod_lt _ (by decide)), trivial, trivial⟩

/-- Sending the command on an idle simulated controller: two loads have been
made by then, and the controller owes at most `latency` busy reads. -/
theorem sim_sendCmd (cfg : SimCfg) (phy_address reg writeflag writeval : Nat) (w : World Sim)
    (hidle : w.hw.idle) :
    (sendCmd (simDevice cfg) MDIO_USERACCESS0_OFFSET phy_address reg writeflag writeval w).hw.ok ∧
    (sendCmd (simDevice cfg) MDIO_USERACCESS0_OFFSET phy_address reg writeflag writeval w).hw.busy
      ≤ cfg.latency ∧
    (sendCmd (simDevice cfg) MDIO_USERACCESS0_OFFSET phy_address reg writeflag writeval w).hw.settle
      = ((simDevice cfg).store MDIO_USERACCESS0_OFFSET
          (cmdWord phy_address reg writeflag writeval) w.hw).settle ∧
    (loadsAt MDIO_USERACCESS0_OFFSET
      (sendCmd (simDevice cfg) MDIO_USERACCESS0_OFFSET phy_address reg writeflag writeval w).bus).length
      = (loadsAt MDIO_USERACCESS0_OFFSET w.bus).length + 1 ∧
    ackReports
      (sendCmd (simDevice cfg) MDIO_USERACCESS0_OFFSET phy_address reg writeflag writeval w).out
      = ackReports w.out := by
  obtain ⟨hres, hbusy, hcmd⟩ := sim_store_cmd cfg w.hw (cmdWord phy_address reg writeflag writeval)
    (cmdWord_go _ _ _ _)
  have hgo : (((simDevice cfg).store MDIO_USERACCESS0_OFFSET
      (cmdWord phy_address reg writeflag writeval) w.hw).cmd % WORD)
        &&& MDIO_USERACCESS0_GO_BIT ≠ 0 := by
    rw [hcmd, cmdWord_mod]; exact cmdWord_go _ _ _ _
  by_cases hw : writeflag % 256 ≠ 0
  · have e : sendCmd (simDevice cfg) MDIO_USERACCESS0_OFFSET phy_address reg writeflag writeval w
        = { w with
            hw := (simDevice cfg).store MDIO_USERACCESS0_OFFSET
              (cmdWord phy_address reg writeflag writeval) w.hw,
            bus := w.bus ++ [Event.load MDIO_USERACCESS0_OFFSET w.hw.result]
              ++ [Event.store MDIO_USERACCESS0_OFFSET (cmdWord phy_address reg writeflag writeval)],
            out := w.out ++ [Tok.write w.hw.result] } := by
      unfold sendCmd
      rw [if_pos hw, sim_ld_idle cfg w hidle.1 hidle.2]
      simp only [sto, say, cmdWord_mod]
    rw [e]
    refine ⟨⟨hres, fun _ => hgo⟩, le_of_eq hbusy, rfl, ?_, ?_⟩
    · simp [loadsAt_append, loadsAt]
    · simp [ackReports_append, ackReports]
  · by_cases hb : ((simDevice cfg).store MDIO_USERACCESS0_OFFSET
        (cmdWord phy_address reg writeflag writeval) w.hw).busy = 0
    · have e : sendCmd (simDevice cfg) MDIO_USERACCESS0_OFFSET phy_address reg writeflag writeval w
          = { w with
              hw := (simDevice cfg).store MDIO_USERACCESS0_OFFSET
                (cmdWord phy_address reg writeflag writeval) w.hw,
              bus := w.bus
                ++ [Event.store MDIO_USERACCESS0_OFFSET (cmdWord phy_address reg writeflag writeval)]
                ++ [Event.load MDIO_USERACCESS0_OFFSET
                  (((simDevice cfg).store MDIO_USERACCESS0_OFFSET
                    (cmdWord phy_address reg writeflag writeval) w.hw).result % WORD)],
              out := w.out ++ [Tok.read (((simDevice cfg).store MDIO_USERACCESS0_OFFSET
                    (cmdWord phy_address reg writeflag writeval) w.hw).result % WORD)] } := by
        unfold sendCmd
        rw [if_neg hw]
        simp only [sto, say, ld, cmdWord_mod, sim_load_idle cfg _ hb]
      rw [e]
      refine ⟨⟨hres, fun _ => hgo⟩, by rw [hb]; exact Nat.zero_le _, rfl, ?_, ?_⟩
      · simp [loadsAt_append, loadsAt]
      · simp [ackReports_append, ackReports]
    · have e : sendCmd (simDevice cfg) MDIO_USERACCESS0_OFFSET phy_address reg writeflag writeval w
          = { w with
              hw := { (simDevice cfg).store MDIO_USERACCESS0_OFFSET
                  (cmdWord phy_address reg writeflag writeval) w.hw with
                busy := ((simDevice cfg).store MDIO_USERACCESS0_OFFSET
                  (cmdWord phy_address reg writeflag writeval) w.hw).busy - 1 },
              bus := w.bus
                ++ [Event.store MDIO_USERACCESS0_OFFSET (cmdWord phy_address reg writeflag writeval)]
                ++ [Event.load MDIO_USERACCESS0_OFFSET
                  (((simDevice cfg).store MDIO_USERACCESS0_OFFSET
                    (cmdWord phy_address reg writeflag writeval) w.hw).cmd % WORD)],
              out := w.out ++ [Tok.read (((simDevice cfg).store MDIO_USERACCESS0_OFFSET
                    (cmdWord phy_address reg writeflag writeval) w.hw).cmd % WORD)] } := by
        unfold sendCmd
        rw [if_neg hw]
        simp only [sto, say, ld, cmdWord_mod, sim_load_busy cfg _ hb]
      rw [e]
      refine ⟨⟨hres, fun _ => hgo⟩, ?_, rfl, ?_, ?_⟩
      · show ((simDevice cfg).store MDIO_USERACCESS0_OFFSET
          (cmdWord phy_address reg writeflag writeval) w.hw).busy - 1 ≤ cfg.latency
        omega
      · simp [loadsAt_append, loadsAt]
      · simp [ackReports_append, ackReports]

/-- The completed word of a transaction: status bits over a 16-bit data field. -/
theorem sim_store_form (cfg : SimCfg) (s : Sim) (c : Nat)
    (hc : c &&& MDIO_USERACCESS0_GO_BIT ≠ 0) :
    ∃ y, y < 65536 ∧
      ((simDevice cfg).store MDIO_USERACCESS0_OFFSET c s).result
        = (cfg.status c &&& 0x7FFF0000) ||| y := by
  by_cases hw : c &&& MDIO_USERACCESS0_WRITE_BIT ≠ 0
  · refine ⟨c &&& 0xFFFF, lt_of_le_of_lt Nat.and_le_right (by norm_num), ?_⟩
    simp only [simDevice, if_true, if_pos hc, if_pos hw]
  · refine ⟨s.phy ((c >>> 16) &&& 31) ((c >>> 21) &&& 31) % HALF, Nat.mod_lt _ (by decide), ?_⟩
    simp only [simDevice, if_true, if_pos hc, if_neg hw]

/-- A write command puts its data field into the addressed register. -/
theorem sim_store_write_phy (cfg : SimCfg) (s : Sim) (c : Nat)
    (hc : c &&& MDIO_USERACCESS0_GO_BIT ≠ 0) (hw : c &&& MDIO_USERACCESS0_WRITE_BIT ≠ 0) :
    ((simDevice cfg).store MDIO_USERACCESS0_OFFSET c s).phy ((c >>> 16) &&& 31) ((c >>> 21) &&& 31)
      = c &&& 0xFFFF := by
  simp only [simDevice, if_true, if_pos hc, if_pos hw, and_self]

/-- A read command completes with the data field of the addressed register. -/
theorem sim_store_read_result (cfg : SimCfg) (s : Sim) (c : Nat)
    (hc : c &&& MDIO_USERACCESS0_GO_BIT ≠ 0) (hw : c &&& MDIO_USERACCESS0_WRITE_BIT = 0) :
    ((simDevice cfg).store MDIO_USERACCESS0_OFFSET c s).result
      = (cfg.status c &&& 0x7FFF0000)
          ||| (s.phy ((c >>> 16) &&& 31) ((c >>> 21) &&& 31) % HALF) := by
  simp only [simDevice, if_true, if_pos hc, if_neg (not_not.2 hw)]

theorem sim_waitIdle (cfg : SimCfg) (fuel : Nat) (w : World Sim) (hidle : w.hw.idle) :
    waitIdle (simDevice cfg) fuel MDIO_USERACCESS0_OFFSET w
      = ({ w with bus := w.bus ++ [Event.load MDIO_USERACCESS0_OFFSET w.hw.result],
                  out := w.out ++ [Tok.idle] }, true) := by
  unfold waitIdle
  rw [sim_ld_idle cfg w hidle.1 hidle.2, if_neg (not_not.2 (go_clear_of_lt hidle.2))]
  rfl

theorem sim_checkAck (cfg : SimCfg) (fuel : Nat) (w : World Sim) (hidle : w.hw.idle)
    (hf : 0 < fuel) :
    (checkAck (simDevice cfg) fuel MDIO_USERACCESS0_OFFSET w).2 = true ∧
    (checkAck (simDevice cfg) fuel MDIO_USERACCESS0_OFFSET w).1.hw = w.hw ∧
    (loadsAt MDIO_USERACCESS0_OFFSET
        (checkAck (simDevice cfg) fuel MDIO_USERACCESS0_OFFSET w).1.bus).length
      ≤ (loadsAt MDIO_USERACCESS0_OFFSET w.bus).length + 2 ∧
    ackReports (checkAck (simDevice cfg) fuel MDIO_USERACCESS0_OFFSET w).1.out
      = ackReports w.out ++ [decide (w.hw.result &&& MDIO_USERACCESS0_ACK_BIT ≠ 0)] := by
  by_cases hack : w.hw.result &&& MDIO_USERACCESS0_ACK_BIT ≠ 0
  · have e : checkAck (simDevice cfg) fuel MDIO_USERACCESS0_OFFSET w
        = waitGo (simDevice cfg) MDIO_USERACCESS0_OFFSET fuel
            { w with bus := w.bus ++ [Event.load MDIO_USERACCESS0_OFFSET w.hw.result],
                     out := w.out ++ [Tok.ack] } := by
      unfold checkAck
      rw [sim_ld_idle cfg w hidle.1 hidle.2, if_pos hack]
      rfl
    obtain ⟨h1, h2, h3⟩ := sim_waitGo cfg fuel
      { w with bus := w.bus ++ [Event.load MDIO_USERACCESS0_OFFSET w.hw.result],
               out := w.out ++ [Tok.ack] }
      (Sim.ok_of_idle hidle) (by show w.hw.busy < fuel; rw [hidle.1]; exact hf)
    rw [e]
    refine ⟨h1, ?_, ?_, ?_⟩
    · rw [h2]; exact Sim.settle_of_busy_zero hidle.1
    · rw [h3]
      simp only [loadsAt_append, loadsAt, if_true, List.length_append, List.length_singleton,
        hidle.1]
      omega
    · rw [waitGo_out]
      simp [ackReports_append, ackReports, hack]
  · have e : checkAck (simDevice cfg) fuel MDIO_USERACCESS0_OFFSET w
        = ({ w with bus := w.bus ++ [Event.load MDIO_USERACCESS0_OFFSET w.hw.result],
                    out := w.out ++ [Tok.nak] }, true) := by
      unfold checkAck
      rw [sim_ld_idle cfg w hidle.1 hidle.2, if_neg hack]
      rfl
    rw [e]
    refine ⟨rfl, rfl, ?_, ?_⟩
    · simp [loadsAt_append, loadsAt]
    · simp [ackReports_append, ackReports, hack]

theorem sim_fetchData (cfg : SimCfg) (writeflag writeval : Nat) (w : World Sim)
    (hidle : w.hw.idle) :
    (fetchData (simDevice cfg) MDIO_USERACCESS0_OFFSET writeflag writeval w).2
      = (w.hw.result : Int) ∧
    (fetchData (simDevice cfg) MDIO_USERACCESS0_OFFSET writeflag writeval w).1.hw = w.hw ∧
    (loadsAt MDIO_USERACCESS0_OFFSET
        (fetchData (simDevice cfg) MDIO_USERACCESS0_OFFSET writeflag writeval w).1.bus).length
      = (loadsAt MDIO_USERACCESS0_OFFSET w.bus).length + 1 ∧
    ackReports (fetchData (simDevice cfg) MDIO_USERACCESS0_OFFSET writeflag writeval w).1.out
      = ackReports w.out := by
  unfold fetchData
  rw [sim_ld_idle cfg w hidle.1 hidle.2]
  refine ⟨toInt32_of_lt hidle.2, ?_, ?_, ?_⟩
  · by_cases hw : writeflag % 256 ≠ 0
    · simp [hw, say]
    · simp [hw, say]
  · by_cases hw : writeflag % 256 ≠ 0
    · simp [hw, say, loadsAt_append, loadsAt]
    · simp [hw, say, loadsAt_append, loadsAt]
  · by_cases hw : writeflag % 256 ≠ 0
    · simp [hw, say, ackReports_append, ackReports]
    · simp [hw, say, ackReports_append, ackReports]

/-- One call of `accessreg` on an idle simulated controller with more fuel
than its latency: the call returns the completed word, leaves the controller
idle, makes at most `latency + 6` loads and reports one acknowledgement, the
ACK bit of the completed word. -/
theorem sim_accessreg (cfg : SimCfg) (fuel phy_address reg writeflag writeval : Nat)
    (w : World Sim) (hidle : w.hw.idle) (hf : cfg.latency < fuel) :
    (accessreg (simDevice cfg) fuel MDIO_USERACCESS0_OFFSET phy_address reg writeflag writeval w).2
      = some ((((simDevice cfg).store MDIO_USERACCESS0_OFFSET
          (cmdWord phy_address reg writeflag writeval) w.hw).result : Nat) : Int) ∧
    (accessreg (simDevice cfg) fuel MDIO_USERACCESS0_OFFSET phy_address reg writeflag writeval w).1.hw
      = ((simDevice cfg).store MDIO_USERACCESS0_OFFSET
          (cmdWord phy_address reg writeflag writeval) w.hw).settle ∧
    (loadsAt MDIO_USERACCESS0_OFFSET
      (accessreg (simDevice cfg) fuel MDIO_USERACCESS0_OFFSET phy_address reg writeflag
        writeval w).1.bus).length
      ≤ (loadsAt MDIO_USERACCESS0_OFFSET w.bus).length + cfg.latency + 6 ∧
    ackReports
      (accessreg (simDevice cfg) fuel MDIO_USERACCESS0_OFFSET phy_address reg writeflag
        writeval w).1.out
      = ackReports w.out ++ [decide (((simDevice cfg).store MDIO_USERACCESS0_OFFSET
          (cmdWord phy_address reg writeflag writeval) w.hw).result
            &&& MDIO_USERACCESS0_ACK_BIT ≠ 0)] := by
  obtain ⟨hres, -, -⟩ := sim_store_cmd cfg w.hw (cmdWord phy_address reg writeflag writeval)
    (cmdWord_go _ _ _ _)
  rcases h1 : waitIdle (simDevice cfg) fuel MDIO_USERACCESS0_OFFSET
      (say (Tok.hdr (phy_address % HALF) (reg % HALF)) w) with ⟨w1, b1⟩
  have e1 := sim_waitIdle cfg fuel (say (Tok.hdr (phy_address % HALF) (reg % HALF)) w) hidle
  rw [h1] at e1
  have hb1 : b1 = true := (Prod.mk.inj e1).2
  have hw1 : w1.hw = w.hw := by rw [(Prod.mk.inj e1).1]; rfl
  have hl1 : (loadsAt MDIO_USERACCESS0_OFFSET w1.bus).length
      = (loadsAt MDIO_USERACCESS0_OFFSET w.bus).length + 1 := by
    rw [(Prod.mk.inj e1).1]; simp [say, loadsAt_append, loadsAt]
  have ho1 : ackReports w1.out = ackReports w.out := by
    rw [(Prod.mk.inj e1).1]; simp [say, ackReports_append, ackReports]
  subst hb1
  clear e1
  have hidle1 : w1.hw.idle := by rw [hw1]; exact hidle
  obtain ⟨s1, s2, s3, s4, s5⟩ := sim_sendCmd cfg phy_address reg writeflag writeval w1 hidle1
  obtain ⟨g1, g2, g3⟩ := sim_waitGo cfg fuel _ s1 (lt_of_le_of_lt s2 hf)
  have go := waitGo_out (simDevice cfg) MDIO_USERACCESS0_OFFSET fuel
      (sendCmd (simDevice cfg) MDIO_USERACCESS0_OFFSET phy_address reg writeflag writeval w1)
  rcases h2 : waitGo (simDevice cfg) MDIO_USERACCESS0_OFFSET fuel
      (sendCmd (simDevice cfg) MDIO_USERACCESS0_OFFSET phy_address reg writeflag writeval w1)
    with ⟨w2, b2⟩
  rw [h2] at g1 g2 g3 go
  simp only at g1 g2 g3 go
  subst g1
  rw [s3, hw1] at g2
  have hidle2 : w2.hw.idle := by rw [g2]; exact ⟨rfl, hres⟩
  obtain ⟨c1, c2, c3, c4⟩ := sim_checkAck cfg fuel w2 hidle2 (Nat.lt_of_le_of_lt (Nat.zero_le _) hf)
  rcases h3 : checkAck (simDevice cfg) fuel MDIO_USERACCESS0_OFFSET w2 with ⟨w3, b3⟩
  rw [h3] at c1 c2 c3 c4
  simp only at c1 c2 c3 c4
  subst c1
  have hidle3 : w3.hw.idle := by rw [c2]; exact hidle2
  obtain ⟨f1, f2, f3, f4⟩ := sim_fetchData cfg writeflag writeval w3 hidle3
  have hacc : accessreg (simDevice cfg) fuel MDIO_USERACCESS0_OFFSET phy_address reg writeflag
      writeval w
      = ((fetchData (simDevice cfg) MDIO_USERACCESS0_OFFSET writeflag writeval w3).1,
         some (fetchData (simDevice cfg) MDIO_USERACCESS0_OFFSET writeflag writeval w3).2) := by
    simp only [accessreg, h1, h2, h3]
  rw [hacc]
  refine ⟨?_, ?_, ?_, ?_⟩
  · show some _ = some _
    rw [f1, c2, g2]; rfl
  · show (fetchData (simDevice cfg) MDIO_USERACCESS0_OFFSET writeflag writeval w3).1.hw = _
    rw [f2, c2, g2]
  · show (loadsAt MDIO_USERACCESS0_OFFSET
      (fetchData (simDevice cfg) MDIO_USERACCESS0_OFFSET writeflag writeval w3).1.bus).length ≤ _
    rw [f3]
    omega
  · show ackReports (fetchData (simDevice cfg) MDIO_USERACCESS0_OFFSET writeflag writeval w3).1.out
      = _
    rw [f4, c4, go, s5, ho1, g2]
    rfl

end OnSim

/-! ## `miiInit` -/

section Init

variable {σ : Type}

theorem waitGo_phy_address (dev : Device σ) (ua fuel : Nat) (w : World σ) :
    (waitGo dev ua fuel w).1.phy_address = w.phy_address := by
  induction fuel generalizing w with
  | zero => rfl
  | succ n ih =>
    rw [waitGo_succ]
    split
    · rw [ih]; rfl
    · rfl

/-- `accessreg` leaves the global `phy_address` alone. -/
theorem accessreg_phy_address (dev : Device σ)
    (fuel ua phy_address reg writeflag writeval : Nat) (w : World σ) :
    (accessreg dev fuel ua phy_address reg writeflag writeval w).1.phy_address
      = w.phy_address := by
  have i1 : (waitIdle dev fuel ua (say (Tok.hdr (phy_address % HALF) (reg % HALF)) w)).1.phy_address
      = w.phy_address := by
    unfold waitIdle
    split
    · rw [waitGo_phy_address]; rfl
    · rfl
  have i2 : ∀ v : World σ,
      (sendCmd dev ua phy_address reg writeflag writeval v).phy_address = v.phy_address := by
    intro v
    unfold sendCmd
    split <;> rfl
  have i3 : ∀ v : World σ, (checkAck dev fuel ua v).1.phy_address = v.phy_address := by
    intro v
    unfold checkAck
    split
    · rw [waitGo_phy_address]; rfl
    · rfl
  have i4 : ∀ v : World σ,
      (fetchData dev ua writeflag writeval v).1.phy_address = v.phy_address := by
    intro v
    unfold fetchData
    by_cases hw : writeflag % 256 ≠ 0
    · simp [hw, say, ld]
    · simp [hw, say, ld]
  rcases h1 : waitIdle dev fuel ua (say (Tok.hdr (phy_address % HALF) (reg % HALF)) w)
    with ⟨w1, b1⟩
  rw [h1] at i1
  cases b1 with
  | false => simpa only [accessreg, h1] using i1
  | true =>
    have j2 := waitGo_phy_address dev ua fuel
      (sendCmd dev ua phy_address reg writeflag writeval w1)
    rcases h2 : waitGo dev ua fuel (sendCmd dev ua phy_address reg writeflag writeval w1)
      with ⟨w2, b2⟩
    rw [h2, i2] at j2
    cases b2 with
    | false =>
      simp only [accessreg, h1, h2]
      exact j2.trans i1
    | true =>
      have j3 := i3 w2
      rcases h3 : checkAck dev fuel ua w2 with ⟨w3, b3⟩
      rw [h3] at j3
      cases b3 with
      | false =>
        simp only [accessreg, h1, h2, h3]
        exact j3.trans (j2.trans i1)
      | true =>
        simp only [accessreg, h1, h2, h3]
        exact (i4 w3).trans (j3.trans (j2.trans i1))

/-- The mapping of `MDIO_BASE_TARGET` when `open` and `mmap` succeed. -/
theorem map_base_ok (os : Os) (w : World σ) (ho : os.openOk = true) (hm : os.mmapOk = true) :
    map_base os MDIO_BASE_TARGET w
      = ({ w with sys := w.sys ++ [Syscall.openMem,
            Syscall.mmap MAP_SIZE (MDIO_BASE_TARGET % WORD), Syscall.close] },
         some (MDIO_BASE_TARGET % WORD)) := by
  unfold map_base
  rw [if_neg (by decide), if_neg (by simp [ho]), if_neg (by simp [hm])]

theorem bit_clear_iff (b p : Nat) : b &&& (1 <<< p) = 0 ↔ b.testBit p = false := by
  rw [Nat.one_shiftLeft]
  exact land_two_pow_eq_zero b p

/-- The scan stops at the first set bit at or after its start, or at 32. -/
theorem scanPhy_spec (b n : Nat) :
    ∀ p, 32 - p = n → p ≤ 32 →
      scanPhy b p ≤ 32 ∧ p ≤ scanPhy b p ∧
      (scanPhy b p < 32 → b.testBit (scanPhy b p) = true) ∧
      (∀ j, p ≤ j → j < scanPhy b p → b.testBit j = false) := by
  induction n with
  | zero =>
    intro p hn hp
    have hp32 : p = 32 := by omega
    subst hp32
    have e : scanPhy b 32 = 32 := by
      rw [scanPhy, if_neg (by simp)]
    rw [e]
    exact ⟨le_refl _, le_refl _, fun h => absurd h (lt_irrefl _), fun j h1 h2 => by omega⟩
  | succ k ih =>
    intro p hn hp
    have hlt : p < 32 := by omega
    by_cases hbit : b &&& (1 <<< p) = 0
    · have e : scanPhy b p = scanPhy b (p + 1) := by
        rw [scanPhy, if_pos ⟨hlt, hbit⟩]
      obtain ⟨h1, h2, h3, h4⟩ := ih (p + 1) (by omega) (by omega)
      rw [e]
      refine ⟨h1, by omega, h3, ?_⟩
      intro j hj1 hj2
      by_cases hjp : j = p
      · subst hjp; exact (bit_clear_iff b j).1 hbit
      · exact h4 j (by omega) hj2
    · have e : scanPhy b p = p := by
        rw [scanPhy, if_neg (fun h => hbit h.2)]
      rw [e]
      refine ⟨hp, le_refl _, fun _ => ?_, fun j h1 h2 => by omega⟩
      cases hb : b.testBit p
      · exact absurd ((bit_clear_iff b p).2 hb) hbit
      · rfl

/-- A 32-bit bitmap is zero exactly when the scan from 0 reaches 32. -/
theorem scanPhy_eq_32_iff (b : Nat) (hb : b < 4294967296) : scanPhy b 0 = 32 ↔ b = 0 := by
  obtain ⟨_, _, h3, h4⟩ := scanPhy_spec b 32 0 rfl (Nat.zero_le _)
  constructor
  · intro h
    apply Nat.eq_of_testBit_eq
    intro i
    rw [Nat.zero_testBit]
    by_cases hi : i < 32
    · exact h4 i (Nat.zero_le _) (by rw [h]; exact hi)
    · have hi32 : 32 ≤ i := Nat.le_of_not_lt hi
      exact Nat.testBit_eq_false_of_lt
        (lt_of_lt_of_le (show b < 2 ^ 32 from hb) (Nat.pow_le_pow_right (by norm_num) hi32))
  · intro h
    subst h
    by_contra hne
    have hlt : scanPhy 0 0 < 32 := by
      have := (scanPhy_spec 0 32 0 rfl (Nat.zero_le _)).1
      omega
    have := h3 hlt
    rw [Nat.zero_testBit] at this
    cases this

theorem storesAt_concat_load (off o v : Nat) (l : List Event) :
    storesAt off (l ++ [Event.load o v]) = storesAt off l := by
  rw [storesAt_append]
  simp [storesAt]

theorem storesAt_concat_store_ne (off o v : Nat) (l : List Event) (h : o ≠ off) :
    storesAt off (l ++ [Event.store o v]) = storesAt off l := by
  rw [storesAt_append]
  simp [storesAt, h]

theorem enableCtrl_stores_ua (dev : Device σ) (w : World σ) :
    storesAt MDIO_USERACCESS0_OFFSET (enableCtrl dev w).bus
      = storesAt MDIO_USERACCESS0_OFFSET w.bus := by
  unfold enableCtrl
  split
  · simp only [sto, say, ld]
    rw [storesAt_concat_store_ne _ _ _ _ (by decide), storesAt_concat_load]
  · simp only [say, ld]
    rw [storesAt_concat_load]

theorem findPhy_stores_ua (dev : Device σ) (w : World σ) :
    storesAt MDIO_USERACCESS0_OFFSET (findPhy dev w).bus
      = storesAt MDIO_USERACCESS0_OFFSET w.bus := by
  simp only [findPhy, say, ld]
  rw [storesAt_concat_load]

/-- What `miiInit` does once the mapping has succeeded. -/
theorem miiInit_mapped (dev : Device σ) (os : Os) (fuel : Nat) (w : World σ)
    (ho : os.openOk = true) (hm : os.mmapOk = true) :
    miiInit dev os fuel w
      = if (findPhy dev (enableCtrl dev (afterMap w))).phy_address = 32 then
          (say Tok.noPhy (findPhy dev (enableCtrl dev (afterMap w))), some (-1))
        else
          forcePort dev fuel
            (say (Tok.phyAddr (findPhy dev (enableCtrl dev (afterMap w))).phy_address)
              (findPhy dev (enableCtrl dev (afterMap w)))) := by
  unfold miiInit
  rw [map_base_ok os w ho hm]
  rfl

end Init

/-! ## `miiInit` on the simulated controller -/

section InitOnSim

theorem toInt32_eq_enable_iff {v : Nat} (hv : v < WORD) :
    toInt32 v = 0x410000ff ↔ v = 0x410000ff := by
  unfold toInt32
  unfold WORD at hv ⊢
  constructor
  · intro h
    split at h <;> omega
  · intro h
    subst h
    decide

/-- A load from a plain register of the simulated window. -/
theorem sim_ld_mem (cfg : SimCfg) (off : Nat) (w : World Sim)
    (hoff : off ≠ MDIO_USERACCESS0_OFFSET) :
    ld (simDevice cfg) off w
      = (w.hw.mem off % WORD,
         { w with bus := w.bus ++ [Event.load off (w.hw.mem off % WORD)] }) := by
  simp [ld, simDevice, hoff]

/-- The enable step on the simulated window, by the value `c` it reads. -/
theorem sim_enableCtrl (cfg : SimCfg) (w : World Sim) :
    enableCtrl (simDevice cfg) w
      = if w.hw.mem ENABLE_CTRL_OFFSET % WORD = 0x410000ff then
          { w with bus := w.bus
                     ++ [Event.load ENABLE_CTRL_OFFSET (w.hw.mem ENABLE_CTRL_OFFSET % WORD)],
                   out := w.out
                     ++ [Tok.ctrlBefore (toInt32 (w.hw.mem ENABLE_CTRL_OFFSET % WORD))] }
        else
          { w with hw := { w.hw with
                           mem := fun o => if o = ENABLE_CTRL_OFFSET then 0x410000ff
                                           else w.hw.mem o },
                   bus := w.bus
                     ++ [Event.load ENABLE_CTRL_OFFSET (w.hw.mem ENABLE_CTRL_OFFSET % WORD)]
                     ++ [Event.store ENABLE_CTRL_OFFSET 0x410000ff],
                   out := w.out
                     ++ [Tok.ctrlBefore (toInt32 (w.hw.mem ENABLE_CTRL_OFFSET % WORD))] } := by
  have hlt : w.hw.mem ENABLE_CTRL_OFFSET % WORD < WORD := Nat.mod_lt _ (by decide)
  unfold enableCtrl
  rw [sim_ld_mem cfg ENABLE_CTRL_OFFSET w (by decide)]
  by_cases hc : w.hw.mem ENABLE_CTRL_OFFSET % WORD = 0x410000ff
  · rw [if_neg (not_not.2 ((toInt32_eq_enable_iff hlt).2 hc)), if_pos hc]
    rfl
  · rw [if_pos (fun h => hc ((toInt32_eq_enable_iff hlt).1 h)), if_neg hc]
    have e : (0x410000ff : Nat) % WORD = 0x410000ff := by decide
    simp only [sto, say, e, simDevice]
    rw [if_neg (by decide)]

theorem sim_enableCtrl_frame (cfg : SimCfg) (w : World Sim) :
    (enableCtrl (simDevice cfg) w).hw.busy = w.hw.busy ∧
    (enableCtrl (simDevice cfg) w).hw.result = w.hw.result ∧
    (enableCtrl (simDevice cfg) w).hw.mem MDIO_ALIVE_OFFSET = w.hw.mem MDIO_ALIVE_OFFSET ∧
    (enableCtrl (simDevice cfg) w).phy_address = w.phy_address := by
  rw [sim_enableCtrl]
  split
  · exact ⟨rfl, rfl, rfl, rfl⟩
  · refine ⟨rfl, rfl, ?_, rfl⟩
    show (if MDIO_ALIVE_OFFSET = ENABLE_CTRL_OFFSET then 0x410000ff
      else w.hw.mem MDIO_ALIVE_OFFSET) = _
    rw [if_neg (by decide)]

theorem sim_findPhy (cfg : SimCfg) (w : World Sim) :
    (findPhy (simDevice cfg) w).hw = w.hw ∧
    (findPhy (simDevice cfg) w).phy_address
      = scanPhy (w.hw.mem MDIO_ALIVE_OFFSET % WORD) w.phy_address := by
  unfold findPhy
  rw [sim_ld_mem cfg MDIO_ALIVE_OFFSET w (by decide)]
  exact ⟨rfl, rfl⟩

/-- After mapping, enabling and scanning from address 0, the simulated
controller is as idle as before and `phy_address` is the result of the scan
over the alive register. -/
theorem sim_probe (cfg : SimCfg) (w : World Sim) (hp0 : w.phy_address = 0)
    (hb : w.hw.mem MDIO_ALIVE_OFFSET < 4294967296) :
    (findPhy (simDevice cfg) (enableCtrl (simDevice cfg) (afterMap w))).phy_address
      = scanPhy (w.hw.mem MDIO_ALIVE_OFFSET) 0 ∧
    (w.hw.idle →
      (findPhy (simDevice cfg) (enableCtrl (simDevice cfg) (afterMap w))).hw.idle) := by
  obtain ⟨e1, e2, e3, e4⟩ := sim_enableCtrl_frame cfg (afterMap w)
  obtain ⟨f1, f2⟩ := sim_findPhy cfg (enableCtrl (simDevice cfg) (afterMap w))
  refine ⟨?_, ?_⟩
  · rw [f2, e3, e4]
    show scanPhy (w.hw.mem MDIO_ALIVE_OFFSET % WORD) w.phy_address = _
    rw [hp0, Nat.mod_eq_of_lt (show w.hw.mem MDIO_ALIVE_OFFSET < WORD from hb)]
  · intro hidle
    rw [f1]
    exact ⟨e1.trans hidle.1, by rw [e2]; exact hidle.2⟩

end InitOnSim

/-! ## The command word and the protocol of `accessreg` -/

/-- C1: for `phy_address`, `reg` in 0..31 and `data` in 0..65535 the only word
`writereg` stores to the user-access register is
`GO | WRITE | (reg<<21) | (phy_address<<16) | data`, and the only word
`readreg` stores is `GO | (reg<<21) | (phy_address<<16)`, whose WRITE bit and
bits 15..0 are zero. The store is made once in every call that returns, and a
call that hangs has stored that word or nothing. -/
theorem C1_command_word {σ : Type} (dev : Device σ) (fuel ua : Nat) (w : World σ)
    (phy_address reg data : Nat) (hp : phy_address ≤ 31) (hr : reg ≤ 31) (hd : data ≤ 65535) :
    ((writereg dev fuel ua phy_address reg data w).2 ≠ none →
      storesAt ua (writereg dev fuel ua phy_address reg data w).1.bus
        = storesAt ua w.bus ++ [MDIO_USERACCESS0_GO_BIT ||| MDIO_USERACCESS0_WRITE_BIT
            ||| (reg <<< 21) ||| (phy_address <<< 16) ||| data]) ∧
    (storesAt ua (writereg dev fuel ua phy_address reg data w).1.bus
        = storesAt ua w.bus ++ [MDIO_USERACCESS0_GO_BIT ||| MDIO_USERACCESS0_WRITE_BIT
            ||| (reg <<< 21) ||| (phy_address <<< 16) ||| data] ∨
      storesAt ua (writereg dev fuel ua phy_address reg data w).1.bus = storesAt ua w.bus) ∧
    ((readreg dev fuel ua phy_address reg w).2 ≠ none →
      storesAt ua (readreg dev fuel ua phy_address reg w).1.bus
        = storesAt ua w.bus
            ++ [MDIO_USERACCESS0_GO_BIT ||| (reg <<< 21) ||| (phy_address <<< 16)]) ∧
    (storesAt ua (readreg dev fuel ua phy_address reg w).1.bus
        = storesAt ua w.bus
            ++ [MDIO_USERACCESS0_GO_BIT ||| (reg <<< 21) ||| (phy_address <<< 16)] ∨
      storesAt ua (readreg dev fuel ua phy_address reg w).1.bus = storesAt ua w.bus) ∧
    (MDIO_USERACCESS0_GO_BIT ||| (reg <<< 21) ||| (phy_address <<< 16))
      &&& MDIO_USERACCESS0_WRITE_BIT = 0 ∧
    (MDIO_USERACCESS0_GO_BIT ||| (reg <<< 21) ||| (phy_address <<< 16)) &&& 0xFFFF = 0 := by
  have ew := cmdWord_write phy_address reg data hp hr hd
  have er := cmdWord_read phy_address reg hp hr
  refine ⟨?_, ?_, ?_, ?_, read_word_no_write phy_address reg hp hr,
    read_word_no_data phy_address reg⟩
  · intro h
    rw [← ew]
    exact accessreg_stores_of_some dev fuel ua phy_address reg 1 (data % HALF) w h
  · rw [← ew]
    exact (accessreg_stores dev fuel ua phy_address reg 1 (data % HALF) w).imp id And.right
  · intro h
    rw [← er]
    exact accessreg_stores_of_some dev fuel ua phy_address reg 0 0 w h
  · rw [← er]
    exact (accessreg_stores dev fuel ua phy_address reg 0 0 w).imp id And.right

/-- C1 at address 25, register 1, data 0x003D on a simulated controller: the
write stores 0xC039003D and the read stores 0x80390000. -/
theorem C1_command_word_witness :
    storesAt MDIO_USERACCESS0_OFFSET
        (writereg (simDevice ⟨1, fun c => c⟩) 2 MDIO_USERACCESS0_OFFSET 25 1 0x003D
          (World.start Sim.zero)).1.bus = [0xC039003D] ∧
    storesAt MDIO_USERACCESS0_OFFSET
        (readreg (simDevice ⟨1, fun c => c⟩) 2 MDIO_USERACCESS0_OFFSET 25 1
          (World.start Sim.zero)).1.bus = [0x80390000] :=
  ⟨(C1_command_word (simDevice ⟨1, fun c => c⟩) 2 MDIO_USERACCESS0_OFFSET (World.start Sim.zero)
      25 1 0x003D (by decide) (by decide) (by decide)).1 (by decide),
   (C1_command_word (simDevice ⟨1, fun c => c⟩) 2 MDIO_USERACCESS0_OFFSET (World.start Sim.zero)
      25 1 0x003D (by decide) (by decide) (by decide)).2.2.1 (by decide)⟩

/-- C10, as the code has it: on every device and for every fuel, what a call
of `accessreg` does is fixed by what the register shows under successive
loads. When the first `fuel + 1` loads all show GO set, the call makes exactly
those loads, stores nothing and returns nothing. When `k` loads show GO set
and the next one shows GO clear, the call makes those `k + 1` loads, at most
one more load, the one store of the command word, then only loads, and when it
returns, a load after the store showed GO clear. So the command is never
stored before GO was seen clear, it is stored exactly once as soon as GO was
seen clear, in particular in every call that returns, and no result is
returned before GO was seen clear again. -/
theorem C10_go_clear_before_store {σ : Type} (dev : Device σ)
    (fuel ua phy_address reg writeflag writeval : Nat) (w : World σ) :
    (firstClear dev ua (fuel + 1) w.hw = none →
      (accessreg dev fuel ua phy_address reg writeflag writeval w).2 = none ∧
      storesAt ua (accessreg dev fuel ua phy_address reg writeflag writeval w).1.bus
        = storesAt ua w.bus ∧
      ∃ busy, allBusy ua busy ∧ busy.length = fuel + 1 ∧
        (accessreg dev fuel ua phy_address reg writeflag writeval w).1.bus = w.bus ++ busy) ∧
    (∀ k, firstClear dev ua (fuel + 1) w.hw = some k →
      storesAt ua (accessreg dev fuel ua phy_address reg writeflag writeval w).1.bus
        = storesAt ua w.bus ++ [cmdWord phy_address reg writeflag writeval] ∧
      ∃ busy c extra post, busy.length = k ∧ allBusy ua busy ∧
        c &&& MDIO_USERACCESS0_GO_BIT = 0 ∧
        onlyLoads ua extra ∧ extra.length ≤ 1 ∧ onlyLoads ua post ∧
        (accessreg dev fuel ua phy_address reg writeflag writeval w).1.bus
          = w.bus ++ busy ++ [Event.load ua c] ++ extra
              ++ [Event.store ua (cmdWord phy_address reg writeflag writeval)] ++ post ∧
        ((accessreg dev fuel ua phy_address reg writeflag writeval w).2 ≠ none →
          sawGoClear ua post)) ∧
    ((accessreg dev fuel ua phy_address reg writeflag writeval w).2 ≠ none →
      ∃ k, firstClear dev ua (fuel + 1) w.hw = some k) ∧
    (((accessreg dev fuel ua phy_address reg writeflag writeval w).2 = none ∧
        ∃ busy, allBusy ua busy ∧
          (accessreg dev fuel ua phy_address reg writeflag writeval w).1.bus = w.bus ++ busy) ∨
      (∃ busy c extra post, allBusy ua busy ∧ c &&& MDIO_USERACCESS0_GO_BIT = 0 ∧
        onlyLoads ua extra ∧ extra.length ≤ 1 ∧ onlyLoads ua post ∧
        (accessreg dev fuel ua phy_address reg writeflag writeval w).1.bus
          = w.bus ++ busy ++ [Event.load ua c] ++ extra
              ++ [Event.store ua (cmdWord phy_address reg writeflag writeval)] ++ post ∧
        ((accessreg dev fuel ua phy_address reg writeflag writeval w).2 ≠ none →
          sawGoClear ua post))) ∧
    (storesAt ua (accessreg dev fuel ua phy_address reg writeflag writeval w).1.bus).length
      ≤ (storesAt ua w.bus).length + 1 ∧
    ((accessreg dev fuel ua phy_address reg writeflag writeval w).2 ≠ none →
      (storesAt ua (accessreg dev fuel ua phy_address reg writeflag writeval w).1.bus).length
        = (storesAt ua w.bus).length + 1) := by
  have hsaw : ∀ post : List Event,
      (∀ d, (accessreg dev fuel ua phy_address reg writeflag writeval w).2 = some d →
        sawGoClear ua post ∧
          ∃ init v, post = init ++ [Event.load ua v] ∧ v < WORD ∧ d = toInt32 v) →
      (accessreg dev fuel ua phy_address reg writeflag writeval w).2 ≠ none →
      sawGoClear ua post := by
    intro post hret hne
    obtain ⟨d, hd⟩ := Option.ne_none_iff_exists'.1 hne
    exact (hret d hd).1
  refine ⟨?_, ?_, ?_, ?_, ?_, ?_⟩
  · intro hnone
    rcases accessreg_shape_first dev fuel ua phy_address reg writeflag writeval w with
      ⟨hn, _, busy, hb, hlen, hbus⟩ | ⟨busy, c, extra, post, hfc, _⟩
    · refine ⟨hn, ?_, busy, hb, hlen, hbus⟩
      rw [hbus, storesAt_append, storesAt_onlyLoads ua ua busy (onlyLoads_of_allBusy hb)]
      simp
    · rw [hnone] at hfc; cases hfc
  · intro k hk
    rcases accessreg_shape_first dev fuel ua phy_address reg writeflag writeval w with
      ⟨_, hfc, _⟩ | ⟨busy, c, extra, post, hfc, hb, hc, hex, hlen, hpost, hbus, hret⟩
    · rw [hk] at hfc; cases hfc
    · have hkl : busy.length = k := by
        rw [hk] at hfc
        exact (Option.some.inj hfc).symm
      refine ⟨?_, busy, c, extra, post, hkl, hb, hc, hex, hlen, hpost, hbus, hsaw post hret⟩
      rw [hbus]
      simp only [storesAt_append, storesAt_onlyLoads ua ua busy (onlyLoads_of_allBusy hb),
        storesAt_onlyLoads ua ua extra hex, storesAt_onlyLoads ua ua post hpost, storesAt,
        if_true, List.append_nil]
  · intro hne
    rcases accessreg_shape_first dev fuel ua phy_address reg writeflag writeval w with
      ⟨hn, _⟩ | ⟨busy, _, _, _, hfc, _⟩
    · exact absurd hn hne
    · exact ⟨busy.length, hfc⟩
  · rcases accessreg_shape dev fuel ua phy_address reg writeflag writeval w with
      h | ⟨busy, c, extra, post, hb, hc, hex, hlen, hpost, hbus, hret⟩
    · exact Or.inl h
    · exact Or.inr ⟨busy, c, extra, post, hb, hc, hex, hlen, hpost, hbus, hsaw post hret⟩
  · rcases accessreg_stores dev fuel ua phy_address reg writeflag writeval w with h | ⟨_, h⟩
    · rw [h]; simp
    · rw [h]; exact Nat.le_succ _
  · intro hne
    rw [accessreg_stores_of_some dev fuel ua phy_address reg writeflag writeval w hne]
    simp

/-- C10 on a simulated controller that is busy at entry: two loads show GO
set, the third shows GO clear, and only then the read command 0x80390000 is
stored, once. -/
theorem C10_go_clear_before_store_witness :
    firstClear (simDevice ⟨1, fun c => c⟩) MDIO_USERACCESS0_OFFSET (3 + 1)
      (World.start { Sim.zero with cmd := 0x80000000, busy := 2 }).hw = some 2 ∧
    storesAt MDIO_USERACCESS0_OFFSET
      (accessreg (simDevice ⟨1, fun c => c⟩) 3 MDIO_USERACCESS0_OFFSET 25 1 0 0
        (World.start { Sim.zero with cmd := 0x80000000, busy := 2 })).1.bus = [0x80390000] ∧
    (accessreg (simDevice ⟨1, fun c => c⟩) 3 MDIO_USERACCESS0_OFFSET 25 1 0 0
        (World.start { Sim.zero with cmd := 0x80000000, busy := 2 })).1.bus
      = [Event.load MDIO_USERACCESS0_OFFSET 0x80000000,
         Event.load MDIO_USERACCESS0_OFFSET 0x80000000,
         Event.load MDIO_USERACCESS0_OFFSET 0,
         Event.store MDIO_USERACCESS0_OFFSET 0x80390000,
         Event.load MDIO_USERACCESS0_OFFSET 0x80390000,
         Event.load MDIO_USERACCESS0_OFFSET 0x00390000,
         Event.load MDIO_USERACCESS0_OFFSET 0x00390000,
         Event.load MDIO_USERACCESS0_OFFSET 0x00390000] :=
  ⟨by decide,
   ((C10_go_clear_before_store (simDevice ⟨1, fun c => c⟩) 3 MDIO_USERACCESS0_OFFSET 25 1 0 0
      (World.start { Sim.zero with cmd := 0x80000000, busy := 2 })).2.1 2 (by decide)).1.trans
     (by decide),
   by decide⟩

/-- C10 as stated fails: against a register that shows GO set on every load
a write of 0x003D to register 1 at address 25 prints WAIT, only loads, and
for no fuel stores anything or returns; the call makes no store at all, not
exactly one. -/
theorem C10_counterexample :
    (accessreg stuckDevice 3 MDIO_USERACCESS0_OFFSET 25 1 1 0x003D (World.start ())).2 = none ∧
    (accessreg stuckDevice 3 MDIO_USERACCESS0_OFFSET 25 1 1 0x003D (World.start ())).1.bus
      = [Event.load MDIO_USERACCESS0_OFFSET 0x80000000,
         Event.load MDIO_USERACCESS0_OFFSET 0x80000000,
         Event.load MDIO_USERACCESS0_OFFSET 0x80000000,
         Event.load MDIO_USERACCESS0_OFFSET 0x80000000] ∧
    (accessreg stuckDevice 3 MDIO_USERACCESS0_OFFSET 25 1 1 0x003D (World.start ())).1.out
      = [Tok.hdr 25 1, Tok.wait] ∧
    (¬ ∃ fuel, storesAt MDIO_USERACCESS0_OFFSET
        (accessreg stuckDevice fuel MDIO_USERACCESS0_OFFSET 25 1 1 0x003D
          (World.start ())).1.bus ≠ []) ∧
    (¬ ∃ fuel, (accessreg stuckDevice fuel MDIO_USERACCESS0_OFFSET 25 1 1 0x003D
          (World.start ())).2 ≠ none) := by
  have hall : ∀ fuel,
      (accessreg stuckDevice fuel MDIO_USERACCESS0_OFFSET 25 1 1 0x003D (World.start ())).2
          = none ∧
      storesAt MDIO_USERACCESS0_OFFSET
        (accessreg stuckDevice fuel MDIO_USERACCESS0_OFFSET 25 1 1 0x003D
          (World.start ())).1.bus = [] := by
    intro fuel
    rcases accessreg_shape_first stuckDevice fuel MDIO_USERACCESS0_OFFSET 25 1 1 0x003D
        (World.start ()) with ⟨hn, _, busy, hb, _, hbus⟩ | ⟨busy, _, _, _, hfc, _⟩
    · refine ⟨hn, ?_⟩
      rw [hbus, storesAt_append,
        storesAt_onlyLoads _ MDIO_USERACCESS0_OFFSET busy (onlyLoads_of_allBusy hb)]
      rfl
    · rw [stuck_firstClear] at hfc; cases hfc
  refine ⟨by decide, by decide, by decide, ?_, ?_⟩
  · rintro ⟨fuel, h⟩
    exact h (hall fuel).2
  · rintro ⟨fuel, h⟩
    exact h (hall fuel).1

/-- C3, as the code has it: the value `accessreg` returns is the whole word of
its last load from the user-access register, converted to `int`; nothing is
masked off. Its low 16 bits are the data field of that word. -/
theorem C3_returns_whole_word {σ : Type} (dev : Device σ)
    (fuel ua phy_address reg writeflag writeval : Nat) (w : World σ) (d : Int)
    (h : (accessreg dev fuel ua phy_address reg writeflag writeval w).2 = some d) :
    ∃ v, (accessreg dev fuel ua phy_address reg writeflag writeval w).1.bus.getLast?
          = some (Event.load ua v) ∧
      v < WORD ∧ d = toInt32 v ∧ d % 4294967296 = (v : Int) ∧
      d % 65536 = ((v &&& 0xFFFF : Nat) : Int) := by
  rcases accessreg_shape dev fuel ua phy_address reg writeflag writeval w with
    ⟨hn, _⟩ | ⟨busy, c, extra, post, _, _, _, _, _, hbus, hret⟩
  · rw [hn] at h; cases h
  · obtain ⟨_, init, v, hpost, hv, hd⟩ := hret d h
    refine ⟨v, ?_, hv, hd, ?_, ?_⟩
    · rw [hbus, hpost, ← List.append_assoc]
      exact List.getLast?_concat _
    · subst hd
      unfold toInt32
      unfold WORD at hv ⊢
      split <;> omega
    · have b : v &&& 0xFFFF = v % 65536 := Nat.and_pow_two_sub_one_eq_mod v 16
      rw [b]
      subst hd
      unfold toInt32
      unfold WORD at hv ⊢
      split <;> omega

/-- C3 on a simulated controller that acknowledges: a read of register 1 at
address 25 holding 0x003D returns 0x2039003D. -/
theorem C3_returns_whole_word_witness :
    (accessreg (simDevice ⟨1, fun c => c ||| MDIO_USERACCESS0_ACK_BIT⟩) 2
        MDIO_USERACCESS0_OFFSET 25 1 0 0
        (World.start { Sim.zero with phy := fun _ _ => 0x003D })).2 = some 0x2039003D ∧
    ∃ v, (accessreg (simDevice ⟨1, fun c => c ||| MDIO_USERACCESS0_ACK_BIT⟩) 2
        MDIO_USERACCESS0_OFFSET 25 1 0 0
        (World.start { Sim.zero with phy := fun _ _ => 0x003D })).1.bus.getLast?
          = some (Event.load MDIO_USERACCESS0_OFFSET v) ∧
      v < WORD ∧ (0x2039003D : Int) = toInt32 v ∧ (0x2039003D : Int) % 4294967296 = (v : Int) ∧
      (0x2039003D : Int) % 65536 = ((v &&& 0xFFFF : Nat) : Int) :=
  ⟨by decide, C3_returns_whole_word _ 2 MDIO_USERACCESS0_OFFSET 25 1 0 0 _ 0x2039003D (by decide)⟩

/-- C3 as stated fails: on a simulated controller that acknowledges, the last
word of the user-access register is 0x2039003D, its data field is 0x003D, and
`readreg` returns 0x2039003D with the ACK, register and address bits in it. -/
theorem C3_counterexample :
    (readreg (simDevice ⟨1, fun c => c ||| MDIO_USERACCESS0_ACK_BIT⟩) 2
        MDIO_USERACCESS0_OFFSET 25 1
        (World.start { Sim.zero with phy := fun _ _ => 0x003D })).1.bus.getLast?
      = some (Event.load MDIO_USERACCESS0_OFFSET 0x2039003D) ∧
    (readreg (simDevice ⟨1, fun c => c ||| MDIO_USERACCESS0_ACK_BIT⟩) 2
        MDIO_USERACCESS0_OFFSET 25 1
        (World.start { Sim.zero with phy := fun _ _ => 0x003D })).2 = some 0x2039003D ∧
    (readreg (simDevice ⟨1, fun c => c ||| MDIO_USERACCESS0_ACK_BIT⟩) 2
        MDIO_USERACCESS0_OFFSET 25 1
        (World.start { Sim.zero with phy := fun _ _ => 0x003D })).2
      ≠ some (((0x2039003D &&& 0xFFFF : Nat)) : Int) := by
  decide

/-- C5: on a simulated controller that is idle at entry and clears GO after
exactly one read following the store of a command, `accessreg` returns for
every `phy_address`, `reg`, direction and data as soon as the fuel is at
least 2, and it makes at most 7 loads from the user-access register. -/
theorem C5_terminates_within_seven_reads (status : Nat → Nat)
    (fuel phy_address reg writeflag writeval : Nat) (w : World Sim)
    (hidle : w.hw.idle) (hf : 2 ≤ fuel) :
    (accessreg (simDevice ⟨1, status⟩) fuel MDIO_USERACCESS0_OFFSET phy_address reg writeflag
        writeval w).2 ≠ none ∧
    (loadsAt MDIO_USERACCESS0_OFFSET
        (accessreg (simDevice ⟨1, status⟩) fuel MDIO_USERACCESS0_OFFSET phy_address reg writeflag
          writeval w).1.bus).length
      ≤ (loadsAt MDIO_USERACCESS0_OFFSET w.bus).length + 7 := by
  obtain ⟨h1, _, h3, _⟩ :=
    sim_accessreg ⟨1, status⟩ fuel phy_address reg writeflag writeval w hidle hf
  refine ⟨?_, h3⟩
  rw [h1]
  exact Option.some_ne_none _

/-- C5 on a write of 0x003D to register 1 at address 25 that is acknowledged:
the call returns and makes exactly 7 loads. -/
theorem C5_terminates_within_seven_reads_witness :
    (World.start Sim.zero).hw.idle ∧ 2 ≤ 2 ∧
    ((accessreg (simDevice ⟨1, fun c => c ||| MDIO_USERACCESS0_ACK_BIT⟩) 2
        MDIO_USERACCESS0_OFFSET 25 1 1 0x003D (World.start Sim.zero)).2 ≠ none ∧
      (loadsAt MDIO_USERACCESS0_OFFSET
        (accessreg (simDevice ⟨1, fun c => c ||| MDIO_USERACCESS0_ACK_BIT⟩) 2
          MDIO_USERACCESS0_OFFSET 25 1 1 0x003D (World.start Sim.zero)).1.bus).length
        ≤ (loadsAt MDIO_USERACCESS0_OFFSET (World.start Sim.zero).bus).length + 7) ∧
    (loadsAt MDIO_USERACCESS0_OFFSET
        (accessreg (simDevice ⟨1, fun c => c ||| MDIO_USERACCESS0_ACK_BIT⟩) 2
          MDIO_USERACCESS0_OFFSET 25 1 1 0x003D (World.start Sim.zero)).1.bus).length = 7 :=
  ⟨⟨rfl, by decide⟩, le_refl 2,
   C5_terminates_within_seven_reads (fun c => c ||| MDIO_USERACCESS0_ACK_BIT) 2 25 1 1 0x003D
     (World.start Sim.zero) ⟨rfl, by decide⟩ (le_refl 2),
   by decide⟩

/-- C6: on an idle simulated controller that completes every command, with
more fuel than its latency, `accessreg` returns the completed word `v` for
every input, and it reports exactly one acknowledgement: ACK when bit 29 of
`v` is set, NAK when it is clear. When the controller never sets the ACK bit
the call still returns a result and the report is NAK. -/
theorem C6_nak_still_returns (cfg : SimCfg) (fuel phy_address reg writeflag writeval : Nat)
    (w : World Sim) (hidle : w.hw.idle) (hf : cfg.latency < fuel) :
    ∃ v : Nat,
      (accessreg (simDevice cfg) fuel MDIO_USERACCESS0_OFFSET phy_address reg writeflag
        writeval w).2 = some (v : Int) ∧
      (accessreg (simDevice cfg) fuel MDIO_USERACCESS0_OFFSET phy_address reg writeflag
        writeval w).1.hw.result = v ∧
      ackReports (accessreg (simDevice cfg) fuel MDIO_USERACCESS0_OFFSET phy_address reg
        writeflag writeval w).1.out
        = ackReports w.out ++ [decide (v &&& MDIO_USERACCESS0_ACK_BIT ≠ 0)] ∧
      ((∀ c, cfg.status c &&& MDIO_USERACCESS0_ACK_BIT = 0) →
        v &&& MDIO_USERACCESS0_ACK_BIT = 0 ∧
        ackReports (accessreg (simDevice cfg) fuel MDIO_USERACCESS0_OFFSET phy_address reg
          writeflag writeval w).1.out = ackReports w.out ++ [false]) := by
  obtain ⟨h1, h2, _, h4⟩ :=
    sim_accessreg cfg fuel phy_address reg writeflag writeval w hidle hf
  refine ⟨_, h1, by rw [h2]; rfl, h4, ?_⟩
  intro hnak
  obtain ⟨y, hy, hform⟩ := sim_store_form cfg w.hw (cmdWord phy_address reg writeflag writeval)
    (cmdWord_go _ _ _ _)
  have hz : ((simDevice cfg).store MDIO_USERACCESS0_OFFSET
      (cmdWord phy_address reg writeflag writeval) w.hw).result
        &&& MDIO_USERACCESS0_ACK_BIT = 0 := by
    rw [hform]
    exact ack_clear_of_or _ y (hnak _) hy
  refine ⟨hz, ?_⟩
  rw [h4]
  simp [hz]

/-- C6 on a read of register 1 at address 25 from a simulated controller
whose completed words never carry ACK: the call returns 0x003D and reports
NAK. -/
theorem C6_nak_still_returns_witness :
    (accessreg (simDevice ⟨1, fun _ => 0⟩) 2 MDIO_USERACCESS0_OFFSET 25 1 0 0
        (World.start { Sim.zero with phy := fun _ _ => 0x003D })).2 = some 0x003D ∧
    ackReports (accessreg (simDevice ⟨1, fun _ => 0⟩) 2 MDIO_USERACCESS0_OFFSET 25 1 0 0
        (World.start { Sim.zero with phy := fun _ _ => 0x003D })).1.out = [false] ∧
    ∃ v : Nat,
      (accessreg (simDevice ⟨1, fun _ => 0⟩) 2 MDIO_USERACCESS0_OFFSET 25 1 0 0
        (World.start { Sim.zero with phy := fun _ _ => 0x003D })).2 = some (v : Int) ∧
      (accessreg (simDevice ⟨1, fun _ => 0⟩) 2 MDIO_USERACCESS0_OFFSET 25 1 0 0
        (World.start { Sim.zero with phy := fun _ _ => 0x003D })).1.hw.result = v ∧
      ackReports (accessreg (simDevice ⟨1, fun _ => 0⟩) 2 MDIO_USERACCESS0_OFFSET 25 1 0 0
        (World.start { Sim.zero with phy := fun _ _ => 0x003D })).1.out
        = ackReports (World.start { Sim.zero with phy := fun _ _ => 0x003D }).out
            ++ [decide (v &&& MDIO_USERACCESS0_ACK_BIT ≠ 0)] ∧
      ((∀ c, (fun _ => 0 : Nat → Nat) c &&& MDIO_USERACCESS0_ACK_BIT = 0) →
        v &&& MDIO_USERACCESS0_ACK_BIT = 0 ∧
        ackReports (accessreg (simDevice ⟨1, fun _ => 0⟩) 2 MDIO_USERACCESS0_OFFSET 25 1 0 0
          (World.start { Sim.zero with phy := fun _ _ => 0x003D })).1.out
          = ackReports (World.start { Sim.zero with phy := fun _ _ => 0x003D }).out
              ++ [false]) :=
  ⟨by decide, by decide,
   C6_nak_still_returns ⟨1, fun _ => 0⟩ 2 25 1 0 0
     (World.start { Sim.zero with phy := fun _ _ => 0x003D }) ⟨rfl, by decide⟩ (by decide)⟩

/-- C4, as the code has it: on an idle simulated controller that echoes
written values, `writereg` followed by `readreg` of the same address and
register returns the whole completed word, status bits over the data written.
Its data field is the data written, and the value returned is the data itself
when the controller leaves bits 16..30 of the completed word clear. -/
theorem C4_round_trip_data_field (cfg : SimCfg) (fuel phy_address reg data : Nat)
    (w : World Sim) (hidle : w.hw.idle) (hf : cfg.latency < fuel)
    (hp : phy_address ≤ 31) (hr : reg ≤ 31) (hd : data ≤ 65535) :
    (readreg (simDevice cfg) fuel MDIO_USERACCESS0_OFFSET phy_address reg
        (writereg (simDevice cfg) fuel MDIO_USERACCESS0_OFFSET phy_address reg data w).1).2
      = some ((((cfg.status (cmdWord phy_address reg 0 0) &&& 0x7FFF0000) ||| data : Nat)) : Int) ∧
    ((cfg.status (cmdWord phy_address reg 0 0) &&& 0x7FFF0000) ||| data) &&& 0xFFFF = data ∧
    (cfg.status (cmdWord phy_address reg 0 0) &&& 0x7FFF0000 = 0 →
      (readreg (simDevice cfg) fuel MDIO_USERACCESS0_OFFSET phy_address reg
        (writereg (simDevice cfg) fuel MDIO_USERACCESS0_OFFSET phy_address reg data w).1).2
      = some (data : Int)) := by
  have hwsum := write_word_sum phy_address reg data hp hr hd
  have hrsum := read_word_sum phy_address reg hp hr
  have ew := cmdWord_write phy_address reg data hp hr hd
  have er := cmdWord_read phy_address reg hp hr
  obtain ⟨fw1, fw2, fw3⟩ := fields_of_sum (cmdWord phy_address reg 1 (data % HALF)) 48
    phy_address reg data hp hr hd (by rw [ew, hwsum])
  obtain ⟨fr1, fr2, _⟩ := fields_of_sum (cmdWord phy_address reg 0 0) 32
    phy_address reg 0 hp hr (Nat.zero_le _) (by rw [er, hrsum]; omega)
  have hww : cmdWord phy_address reg 1 (data % HALF) &&& MDIO_USERACCESS0_WRITE_BIT ≠ 0 := by
    rw [ew]; exact write_word_has_write _ _ _
  have hrw : cmdWord phy_address reg 0 0 &&& MDIO_USERACCESS0_WRITE_BIT = 0 := by
    rw [er]; exact read_word_no_write phy_address reg hp hr
  obtain ⟨_, a2, _, _⟩ := sim_accessreg cfg fuel phy_address reg 1 (data % HALF) w hidle hf
  obtain ⟨hres, _, _⟩ := sim_store_cmd cfg w.hw (cmdWord phy_address reg 1 (data % HALF))
    (cmdWord_go _ _ _ _)
  have hidle1 : (writereg (simDevice cfg) fuel MDIO_USERACCESS0_OFFSET phy_address reg data
      w).1.hw.idle := by
    unfold writereg
    rw [a2]
    exact ⟨rfl, hres⟩
  obtain ⟨b1, _, _, _⟩ := sim_accessreg cfg fuel phy_address reg 0 0
    (writereg (simDevice cfg) fuel MDIO_USERACCESS0_OFFSET phy_address reg data w).1 hidle1 hf
  have hval : ((simDevice cfg).store MDIO_USERACCESS0_OFFSET (cmdWord phy_address reg 0 0)
      (writereg (simDevice cfg) fuel MDIO_USERACCESS0_OFFSET phy_address reg data w).1.hw).result
      = (cfg.status (cmdWord phy_address reg 0 0) &&& 0x7FFF0000) ||| data := by
    rw [sim_store_read_result cfg _ _ (cmdWord_go _ _ _ _) hrw, fr1, fr2]
    unfold writereg
    rw [a2]
    have hphy := sim_store_write_phy cfg w.hw (cmdWord phy_address reg 1 (data % HALF))
      (cmdWord_go _ _ _ _) hww
    rw [fw1, fw2, fw3] at hphy
    show _ ||| (((simDevice cfg).store MDIO_USERACCESS0_OFFSET
      (cmdWord phy_address reg 1 (data % HALF)) w.hw).phy phy_address reg % HALF) = _
    rw [hphy, Nat.mod_eq_of_lt (by unfold HALF; omega)]
  have hret : (readreg (simDevice cfg) fuel MDIO_USERACCESS0_OFFSET phy_address reg
        (writereg (simDevice cfg) fuel MDIO_USERACCESS0_OFFSET phy_address reg data w).1).2
      = some ((((cfg.status (cmdWord phy_address reg 0 0) &&& 0x7FFF0000) ||| data : Nat)) : Int) := by
    unfold readreg
    rw [b1, hval]
  refine ⟨hret, data_field_of_or _ data hd, ?_⟩
  intro hz
  rw [hret, hz, Nat.zero_or]

/-- C4 on a simulated controller that clears bits 16..30 of the completed
word: writing 0x003D to register 1 at address 25 and reading it back returns
0x003D. -/
theorem C4_round_trip_data_field_witness :
    (readreg (simDevice ⟨1, fun _ => 0⟩) 2 MDIO_USERACCESS0_OFFSET 25 1
        (writereg (simDevice ⟨1, fun _ => 0⟩) 2 MDIO_USERACCESS0_OFFSET 25 1 0x003D
          (World.start Sim.zero)).1).2 = some (0x003D : Int) :=
  (C4_round_trip_data_field ⟨1, fun _ => 0⟩ 2 25 1 0x003D (World.start Sim.zero)
    ⟨rfl, by decide⟩ (by decide) (by decide) (by decide) (by decide)).2.2 (by decide)

/-- C4 as stated fails: a simulated controller that completes a command by
clearing GO in the user-access register, and presents the data last written
in the data field, leaves the register and address fields in the word;
writing 0x003D to register 1 at address 25 and reading it back returns
0x0039003D, not 0x003D. -/
theorem C4_counterexample :
    (readreg (simDevice ⟨1, fun c => c⟩) 2 MDIO_USERACCESS0_OFFSET 25 1
        (writereg (simDevice ⟨1, fun c => c⟩) 2 MDIO_USERACCESS0_OFFSET 25 1 0x003D
          (World.start Sim.zero)).1).2 = some 0x0039003D ∧
    (readreg (simDevice ⟨1, fun c => c⟩) 2 MDIO_USERACCESS0_OFFSET 25 1
        (writereg (simDevice ⟨1, fun c => c⟩) 2 MDIO_USERACCESS0_OFFSET 25 1 0x003D
          (World.start Sim.zero)).1).2 ≠ some 0x003D := by
  decide

/-! ## Discovery, the enable step and the forced write of `miiInit` -/

/-- C2: with the mapping in place and the global `phy_address` at its initial
value 0, `miiInit` over a 32-bit alive bitmap `b` returns -1 exactly when
`b = 0`, and then `phy_address` is 32 and the no-PHY message is the last thing
printed; when `b` is not 0, `phy_address` is left at the lowest index below 32
whose bit is set in `b`. -/
theorem C2_first_alive_phy (cfg : SimCfg) (os : Os) (fuel : Nat) (w : World Sim)
    (ho : os.openOk = true) (hm : os.mmapOk = true) (hp0 : w.phy_address = 0)
    (hb : w.hw.mem MDIO_ALIVE_OFFSET < 4294967296) :
    ((miiInit (simDevice cfg) os fuel w).2 = some (-1) ↔ w.hw.mem MDIO_ALIVE_OFFSET = 0) ∧
    (miiInit (simDevice cfg) os fuel w).1.phy_address
      = scanPhy (w.hw.mem MDIO_ALIVE_OFFSET) 0 ∧
    (w.hw.mem MDIO_ALIVE_OFFSET = 0 →
      (miiInit (simDevice cfg) os fuel w).1.phy_address = 32 ∧
      (miiInit (simDevice cfg) os fuel w).1.out.getLast? = some Tok.noPhy) ∧
    (w.hw.mem MDIO_ALIVE_OFFSET ≠ 0 →
      (miiInit (simDevice cfg) os fuel w).1.phy_address < 32 ∧
      (w.hw.mem MDIO_ALIVE_OFFSET).testBit (miiInit (simDevice cfg) os fuel w).1.phy_address
        = true ∧
      ∀ j, j < (miiInit (simDevice cfg) os fuel w).1.phy_address →
        (w.hw.mem MDIO_ALIVE_OFFSET).testBit j = false) := by
  obtain ⟨hscan, -⟩ := sim_probe cfg w hp0 hb
  obtain ⟨s1, -, s3, s4⟩ := scanPhy_spec (w.hw.mem MDIO_ALIVE_OFFSET) 32 0 rfl (Nat.zero_le _)
  have hiff := scanPhy_eq_32_iff (w.hw.mem MDIO_ALIVE_OFFSET) hb
  rw [miiInit_mapped (simDevice cfg) os fuel w ho hm]
  by_cases hz : w.hw.mem MDIO_ALIVE_OFFSET = 0
  · have h32 : (findPhy (simDevice cfg) (enableCtrl (simDevice cfg) (afterMap w))).phy_address
        = 32 := by rw [hscan]; exact hiff.2 hz
    rw [if_pos h32]
    refine ⟨⟨fun _ => hz, fun _ => rfl⟩, hscan, fun _ => ⟨h32, ?_⟩, fun h => absurd hz h⟩
    show ((findPhy (simDevice cfg) (enableCtrl (simDevice cfg) (afterMap w))).out
      ++ [Tok.noPhy]).getLast? = _
    exact List.getLast?_concat _
  · have hne : ¬ (findPhy (simDevice cfg) (enableCtrl (simDevice cfg) (afterMap w))).phy_address
        = 32 := by rw [hscan]; exact fun h => hz (hiff.1 h)
    rw [if_neg hne]
    have hpa : (forcePort (simDevice cfg) fuel
          (say (Tok.phyAddr
              (findPhy (simDevice cfg) (enableCtrl (simDevice cfg) (afterMap w))).phy_address)
            (findPhy (simDevice cfg) (enableCtrl (simDevice cfg) (afterMap w))))).1.phy_address
        = scanPhy (w.hw.mem MDIO_ALIVE_OFFSET) 0 := by
      unfold forcePort writereg
      rw [accessreg_phy_address]
      exact hscan
    have hlt : scanPhy (w.hw.mem MDIO_ALIVE_OFFSET) 0 < 32 := by
      have : scanPhy (w.hw.mem MDIO_ALIVE_OFFSET) 0 ≠ 32 := fun h => hz (hiff.1 h)
      omega
    refine ⟨⟨?_, fun h => absurd h hz⟩, hpa, fun h => absurd h hz, fun _ => ?_⟩
    · intro h
      unfold forcePort at h
      rcases hx : (writereg (simDevice cfg) fuel MDIO_USERACCESS0_OFFSET 25 1 0x003D
          (say (Tok.phyAddr
              (findPhy (simDevice cfg) (enableCtrl (simDevice cfg) (afterMap w))).phy_address)
            (findPhy (simDevice cfg) (enableCtrl (simDevice cfg) (afterMap w))))).2 with _ | d
      · rw [hx] at h; cases h
      · rw [hx] at h; cases h
    · rw [hpa]
      exact ⟨hlt, s3 hlt, fun j hj => s4 j (Nat.zero_le _) hj⟩

/-- C2 on the bitmaps 0b1000 and 0: the first leaves `phy_address` at 3, the
second returns -1 with `phy_address` at 32. -/
theorem C2_first_alive_phy_witness :
    (miiInit (simDevice ⟨1, fun c => c⟩) ⟨true, true⟩ 2
      (World.start { Sim.zero with
        mem := fun o => if o = MDIO_ALIVE_OFFSET then 0b1000 else 0 })).1.phy_address = 3 ∧
    (miiInit (simDevice ⟨1, fun c => c⟩) ⟨true, true⟩ 2 (World.start Sim.zero)).2 = some (-1) ∧
    (miiInit (simDevice ⟨1, fun c => c⟩) ⟨true, true⟩ 2 (World.start Sim.zero)).1.phy_address
      = 32 := by
  have h8 := (C2_first_alive_phy ⟨1, fun c => c⟩ ⟨true, true⟩ 2
    (World.start { Sim.zero with mem := fun o => if o = MDIO_ALIVE_OFFSET then 0b1000 else 0 })
    rfl rfl rfl (by decide)).2.2.2 (by decide)
  have h0 := C2_first_alive_phy ⟨1, fun c => c⟩ ⟨true, true⟩ 2 (World.start Sim.zero)
    rfl rfl rfl (by decide)
  refine ⟨?_, h0.1.2 rfl, (h0.2.2.1 rfl).1⟩
  obtain ⟨hlt, hset, hmin⟩ := h8
  generalize (miiInit (simDevice ⟨1, fun c => c⟩) ⟨true, true⟩ 2
    (World.start { Sim.zero with
      mem := fun o => if o = MDIO_ALIVE_OFFSET then 0b1000 else 0 })).1.phy_address = p at *
  have e : (World.start { Sim.zero with
      mem := fun o => if o = MDIO_ALIVE_OFFSET then 0b1000 else 0 }).hw.mem MDIO_ALIVE_OFFSET
      = 8 := by decide
  rw [e] at hset
  interval_cases p <;> first | rfl | (exact absurd hset (by decide))

/-- C8: on a window whose control register is a plain 32-bit word `c`, the
enable step of `miiInit` loads the register once and stores 0x410000ff to it
only when `c` differs from 0x410000ff; afterwards the register holds
0x410000ff, and a second run of the step loads it and stores nothing. -/
theorem C8_enable_once (cfg : SimCfg) (w : World Sim)
    (hc : w.hw.mem ENABLE_CTRL_OFFSET < WORD) :
    (enableCtrl (simDevice cfg) w).hw.mem ENABLE_CTRL_OFFSET = 0x410000ff ∧
    (enableCtrl (simDevice cfg) w).bus
      = w.bus ++ [Event.load ENABLE_CTRL_OFFSET (w.hw.mem ENABLE_CTRL_OFFSET)]
          ++ (if w.hw.mem ENABLE_CTRL_OFFSET = 0x410000ff then []
              else [Event.store ENABLE_CTRL_OFFSET 0x410000ff]) ∧
    (enableCtrl (simDevice cfg) (enableCtrl (simDevice cfg) w)).bus
      = (enableCtrl (simDevice cfg) w).bus ++ [Event.load ENABLE_CTRL_OFFSET 0x410000ff] ∧
    (enableCtrl (simDevice cfg) (enableCtrl (simDevice cfg) w)).hw.mem ENABLE_CTRL_OFFSET
      = 0x410000ff := by
  have hmod : w.hw.mem ENABLE_CTRL_OFFSET % WORD = w.hw.mem ENABLE_CTRL_OFFSET :=
    Nat.mod_eq_of_lt hc
  have h1 : (enableCtrl (simDevice cfg) w).hw.mem ENABLE_CTRL_OFFSET = 0x410000ff := by
    rw [sim_enableCtrl, hmod]
    split
    · assumption
    · show (if ENABLE_CTRL_OFFSET = ENABLE_CTRL_OFFSET then 0x410000ff
        else w.hw.mem ENABLE_CTRL_OFFSET) = _
      rw [if_pos rfl]
  have h2 : ∀ v : World Sim, v.hw.mem ENABLE_CTRL_OFFSET = 0x410000ff →
      enableCtrl (simDevice cfg) v
        = { v with bus := v.bus ++ [Event.load ENABLE_CTRL_OFFSET 0x410000ff],
                   out := v.out ++ [Tok.ctrlBefore (toInt32 0x410000ff)] } := by
    intro v hv
    have e : (0x410000ff : Nat) % WORD = 0x410000ff := by decide
    rw [sim_enableCtrl, hv, e, if_pos rfl]
  refine ⟨h1, ?_, ?_, ?_⟩
  · rw [sim_enableCtrl, hmod]
    split
    · simp
    · rfl
  · rw [h2 _ h1]
  · rw [h2 _ h1]
    exact h1

/-- C8 on a control register that holds 0: the step loads 0 and stores
0x410000ff once; run again it only loads. -/
theorem C8_enable_once_witness :
    (enableCtrl (simDevice ⟨1, fun c => c⟩) (World.start Sim.zero)).bus
      = [Event.load ENABLE_CTRL_OFFSET 0, Event.store ENABLE_CTRL_OFFSET 0x410000ff] ∧
    (enableCtrl (simDevice ⟨1, fun c => c⟩)
        (enableCtrl (simDevice ⟨1, fun c => c⟩) (World.start Sim.zero))).bus
      = [Event.load ENABLE_CTRL_OFFSET 0, Event.store ENABLE_CTRL_OFFSET 0x410000ff,
         Event.load ENABLE_CTRL_OFFSET 0x410000ff] ∧
    (enableCtrl (simDevice ⟨1, fun c => c⟩) (World.start Sim.zero)).hw.mem ENABLE_CTRL_OFFSET
      = 0x410000ff := by
  have h := C8_enable_once ⟨1, fun c => c⟩ (World.start Sim.zero) (by decide)
  refine ⟨h.2.1.trans (by decide), h.2.2.1.trans ?_, h.1⟩
  rw [h.2.1]
  decide

/-- C9: with the mapping in place, a non-zero 32-bit alive bitmap and an idle
simulated controller that completes commands, `miiInit` with more fuel than
the latency returns 0, whatever address was discovered and whatever the
acknowledgement, and its only store to the user-access register is
0xC039003D, the write command for address 25, register 1, data 0x003D. One
acknowledgement is reported and has no effect on the result. -/
theorem C9_forced_write (cfg : SimCfg) (os : Os) (fuel : Nat) (w : World Sim)
    (ho : os.openOk = true) (hm : os.mmapOk = true) (hp0 : w.phy_address = 0)
    (hb : w.hw.mem MDIO_ALIVE_OFFSET < 4294967296) (hne : w.hw.mem MDIO_ALIVE_OFFSET ≠ 0)
    (hidle : w.hw.idle) (hf : cfg.latency < fuel) :
    (miiInit (simDevice cfg) os fuel w).2 = some 0 ∧
    storesAt MDIO_USERACCESS0_OFFSET (miiInit (simDevice cfg) os fuel w).1.bus
      = storesAt MDIO_USERACCESS0_OFFSET w.bus ++ [0xC039003D] ∧
    (0xC039003D : Nat) = MDIO_USERACCESS0_GO_BIT ||| MDIO_USERACCESS0_WRITE_BIT
        ||| (1 <<< 21) ||| (25 <<< 16) ||| 0x003D ∧
    ∃ a : Bool, ackReports (miiInit (simDevice cfg) os fuel w).1.out = ackReports w.out ++ [a] := by
  obtain ⟨hscan, hid⟩ := sim_probe cfg w hp0 hb
  have hiff := scanPhy_eq_32_iff (w.hw.mem MDIO_ALIVE_OFFSET) hb
  have hne32 : ¬ (findPhy (simDevice cfg) (enableCtrl (simDevice cfg) (afterMap w))).phy_address
      = 32 := by rw [hscan]; exact fun h => hne (hiff.1 h)
  have hidle1 : (say (Tok.phyAddr
        (findPhy (simDevice cfg) (enableCtrl (simDevice cfg) (afterMap w))).phy_address)
      (findPhy (simDevice cfg) (enableCtrl (simDevice cfg) (afterMap w)))).hw.idle := hid hidle
  obtain ⟨a1, -, -, a4⟩ := sim_accessreg cfg fuel 25 1 1 (0x003D % HALF) _ hidle1 hf
  have hsome : (writereg (simDevice cfg) fuel MDIO_USERACCESS0_OFFSET 25 1 0x003D
      (say (Tok.phyAddr
          (findPhy (simDevice cfg) (enableCtrl (simDevice cfg) (afterMap w))).phy_address)
        (findPhy (simDevice cfg) (enableCtrl (simDevice cfg) (afterMap w))))).2 ≠ none := by
    unfold writereg
    rw [a1]
    exact Option.some_ne_none _
  have hst := accessreg_stores_of_some (simDevice cfg) fuel MDIO_USERACCESS0_OFFSET 25 1 1
    (0x003D % HALF) _ hsome
  have hcmd : cmdWord 25 1 1 (0x003D % HALF) = 0xC039003D := by decide
  rw [miiInit_mapped (simDevice cfg) os fuel w ho hm, if_neg hne32]
  refine ⟨?_, ?_, by decide, ?_⟩
  · unfold forcePort writereg
    rw [a1]
    rfl
  · unfold forcePort writereg
    rw [hst, hcmd]
    show storesAt MDIO_USERACCESS0_OFFSET
      (findPhy (simDevice cfg) (enableCtrl (simDevice cfg) (afterMap w))).bus ++ _ = _
    rw [findPhy_stores_ua, enableCtrl_stores_ua]
    rfl
  · unfold forcePort writereg
    rw [a4]
    have e : ackReports (say (Tok.phyAddr
          (findPhy (simDevice cfg) (enableCtrl (simDevice cfg) (afterMap w))).phy_address)
        (findPhy (simDevice cfg) (enableCtrl (simDevice cfg) (afterMap w)))).out
        = ackReports w.out := by
      simp only [say, findPhy, ld, ackReports_append, ackReports, List.append_nil]
      rw [sim_enableCtrl]
      split <;> simp [afterMap, ackReports_append, ackReports]
    rw [e]
    exact ⟨_, rfl⟩

/-- C9 on a controller that never acknowledges, with only address 3 alive:
`miiInit` returns 0 and stores 0xC039003D once. -/
theorem C9_forced_write_witness :
    (miiInit (simDevice ⟨1, fun _ => 0⟩) ⟨true, true⟩ 2
      (World.start { Sim.zero with
        mem := fun o => if o = MDIO_ALIVE_OFFSET then 0b1000 else 0 })).2 = some 0 ∧
    storesAt MDIO_USERACCESS0_OFFSET
      (miiInit (simDevice ⟨1, fun _ => 0⟩) ⟨true, true⟩ 2
        (World.start { Sim.zero with
          mem := fun o => if o = MDIO_ALIVE_OFFSET then 0b1000 else 0 })).1.bus
      = [0xC039003D] := by
  have h := C9_forced_write ⟨1, fun _ => 0⟩ ⟨true, true⟩ 2
    (World.start { Sim.zero with mem := fun o => if o = MDIO_ALIVE_OFFSET then 0b1000 else 0 })
    rfl rfl rfl (by decide) (by decide) ⟨rfl, by decide⟩ (by decide)
  exact ⟨h.1, h.2.1⟩

/-- C7, the code at the failing input: 0x4a101010 is on no page boundary and
is no multiple of `MAP_SIZE`, yet it passes the check of `map_base`, which
goes on to open `/dev/mem` and to call `mmap`, whether `mmap` then succeeds
or fails. The check does reject `MDIO_BASE_TARGET + 1` before any system
call and accepts `MDIO_BASE_TARGET`. -/
theorem C7_check_misses_unaligned :
    (0x4a101010 : Nat) % 4096 ≠ 0 ∧ (0x4a101010 : Nat) % MAP_SIZE ≠ 0 ∧
    (map_base ⟨true, true⟩ 0x4a101010 (World.start ())).2 = some 0x4a101010 ∧
    (map_base ⟨true, true⟩ 0x4a101010 (World.start ())).1.sys
      = [Syscall.openMem, Syscall.mmap MAP_SIZE 0x4a101010, Syscall.close] ∧
    (map_base ⟨true, false⟩ 0x4a101010 (World.start ())).1.sys
      = [Syscall.openMem, Syscall.mmap MAP_SIZE 0x4a101010, Syscall.close] ∧
    (map_base ⟨true, false⟩ 0x4a101010 (World.start ())).1.out = [Tok.errMmap] ∧
    (map_base ⟨true, true⟩ (MDIO_BASE_TARGET + 1) (World.start ())).2 = none ∧
    (map_base ⟨true, true⟩ (MDIO_BASE_TARGET + 1) (World.start ())).1.sys = [] ∧
    (map_base ⟨true, true⟩ (MDIO_BASE_TARGET + 1) (World.start ())).1.out = [Tok.errBoundary] ∧
    (map_base ⟨true, true⟩ MDIO_BASE_TARGET (World.start ())).2 = some MDIO_BASE_TARGET := by
  decide

end PhyReg
